import Mathlib

/-!
# Verification of the CryptoFantasy trading/ledger and scheduling engines

Shallow embedding of the core of `src/server.js` (trade execution route,
portfolio valuator, head-to-head scorer, league scheduler) together with the
SQL query semantics from `src/scripts/queries.js` and the schema
`src/scripts/portfolio.sql`.  JavaScript numbers are modelled as exact
rationals (`ℚ`); timestamps are epoch milliseconds modelled as `ℤ`.
-/

namespace CryptoFantasy

open List

/-- Trade side, as validated by the route (`side must be BUY or SELL`). -/
inductive Side where
  | BUY
  | SELL
deriving DecidableEq, Repr

/-- One row of the `trades` table
(symbol, side, qty, price_usd, cost_usd, created_at). -/
structure TradeRec where
  symbol : String
  side : Side
  qty : ℚ
  price : ℚ
  cost : ℚ
  ts : ℤ
deriving DecidableEq, Repr

/-- The `holdings` rows of one (user, league) portfolio: an association list
from symbol to quantity (the table's primary key makes symbols unique). -/
abbrev Holdings := List (String × ℚ)

/-- Quantity lookup: `hRow.rows[0] ? Number(hRow.rows[0].qty) : 0` /
`holdings[symbol] || 0`. -/
def lookupH : Holdings → String → Option ℚ
  | [], _ => none
  | (s, q) :: t, sym => if s = sym then some q else lookupH t sym

/-- Present quantity or `0` (JS `holdings[symbol] || 0`). -/
def getQty (h : Holdings) (sym : String) : ℚ :=
  (lookupH h sym).getD 0

/-- `portfolioQueries.upsertHolding`: insert or overwrite the row for `sym`
(also matches the JS object write `holdings[symbol] = v`). -/
def upsertH : Holdings → String → ℚ → Holdings
  | [], sym, v => [(sym, v)]
  | (s, q) :: t, sym, v =>
      if s = sym then (s, v) :: t else (s, q) :: upsertH t sym v

/-- `portfolioQueries.deleteHolding` / JS `delete holdings[symbol]`. -/
def deleteH : Holdings → String → Holdings
  | [], _ => []
  | (s, q) :: t, sym => if s = sym then t else (s, q) :: deleteH t sym

/-- `+(x).toFixed(8)`: round to 8 decimal places, ties away from zero for
positive values (ECMA toFixed picks the larger candidate on a tie). -/
def round8 (x : ℚ) : ℚ :=
  (⌊x * 100000000 + 1/2⌋ : ℚ) / 100000000

/-- The ledger state of one (user, league) portfolio: the `portfolios` cash
row, the `holdings` rows, and the append-only `trades` rows (ascending by
`created_at`, i.e. execution order). -/
structure PState where
  cash : ℚ
  holdings : Holdings
  trades : List TradeRec
deriving DecidableEq, Repr

/-- A fresh portfolio: `cash_usd` defaults to `100000.0`
(`portfolio.sql`), no holdings, no trades. -/
def initP : PState := ⟨100000, [], []⟩

/-- JS whitespace for the purposes of `trim()`. -/
def isWS (c : Char) : Bool :=
  c = ' ' || c = '\t' || c = '\n' || c = '\r'

/-- Remove leading and trailing whitespace from a character list
(the semantics of `String.prototype.trim`). -/
def trimChars (l : List Char) : List Char :=
  ((l.dropWhile isWS).reverse.dropWhile isWS).reverse

/-- `normalizeCoinId`: `String(raw || "").trim().toLowerCase()`. -/
def normalizeCoinId (raw : String) : String :=
  ⟨(trimChars raw.data).map Char.toLower⟩

/-- `validateSymbol`: normalize, then reject if empty or not in the
whitelist. -/
def validateSymbol (wl : List String) (raw : String) : Option String :=
  let s := normalizeCoinId raw
  if s = "" ∨ s ∉ wl then none else some s

/-- The error taxonomy of the trade route (each constructor corresponds to
one early-return / rollback path of `app.post("/api/trade")`). -/
inductive TradeErr where
  | CoinNotAllowed
  | BadQty
  | PriceUnavailable
  | InsufficientFunds
  | InsufficientHoldings
deriving DecidableEq, Repr

/-- A single storage mutation issued inside the BEGIN/COMMIT window of the
trade route. -/
inductive Write where
  | updateCash (c : ℚ)
  | upsertHolding (sym : String) (q : ℚ)
  | deleteHolding (sym : String)
  | insertTrade (t : TradeRec)
deriving DecidableEq, Repr

/-- Is this write an `insertTrade`? -/
def Write.isInsertTrade : Write → Bool
  | .insertTrade _ => true
  | _ => false

/-- The trade record inserted by a write, if any. -/
def Write.tradeOf : Write → Option TradeRec
  | .insertTrade t => some t
  | _ => none

/-- Apply one committed write to the portfolio state. -/
def applyWrite (st : PState) : Write → PState
  | .updateCash c => { st with cash := c }
  | .upsertHolding sym q => { st with holdings := upsertH st.holdings sym q }
  | .deleteHolding sym => { st with holdings := deleteH st.holdings sym }
  | .insertTrade t => { st with trades := st.trades ++ [t] }

/-- A trade request as received by the route: `{ symbol, side, quantity }`
(the side string is modelled post-validation as `Side`; `quantity` after
`Number(...)` as `ℚ`, JS NaN/Infinity being excluded by the
`Number.isFinite` check). -/
structure TradeReq where
  symbol : String
  side : Side
  qty : ℚ
deriving DecidableEq, Repr

/-- The transaction body of `app.post("/api/trade")` (between BEGIN and
COMMIT): reads current cash and holding quantity, validates sufficiency and
produces the list of writes, or the business error that triggers ROLLBACK.
`coinId` is the validated symbol, `qty` the validated quantity, `px` the
current price and `cost` the rounded cost. -/
def tradeTxn (st : PState) (coinId : String) (side : Side) (qty px cost : ℚ)
    (ts : ℤ) : Except TradeErr (List Write) :=
  match side with
  | .BUY =>
      if st.cash < cost then .error .InsufficientFunds
      else
        .ok [.updateCash (st.cash - cost),
             .upsertHolding coinId (getQty st.holdings coinId + qty),
             .insertTrade ⟨coinId, .BUY, qty, px, cost, ts⟩]
  | .SELL =>
      if getQty st.holdings coinId < qty then .error .InsufficientHoldings
      else if getQty st.holdings coinId - qty ≤ 0 then
        .ok [.updateCash (st.cash + cost),
             .deleteHolding coinId,
             .insertTrade ⟨coinId, .SELL, qty, px, cost, ts⟩]
      else
        .ok [.updateCash (st.cash + cost),
             .upsertHolding coinId (getQty st.holdings coinId - qty),
             .insertTrade ⟨coinId, .SELL, qty, px, cost, ts⟩]

/-- The whole `app.post("/api/trade")` handler as a state transformer.
`wl` is `COIN_WHITELIST`, `latest` the `prices_latest` read
(`getCurrentPrice`, spec §6 `latestPrice(asset) → price|null`), `ts` the
`created_at` assigned to the inserted trade.  The JS truthiness check
`if (!price)` rejects both a missing and a zero price.  On error the
transaction is rolled back, so no write is applied. -/
def executeTrade (wl : List String) (latest : String → Option ℚ) (ts : ℤ)
    (st : PState) (req : TradeReq) : Except TradeErr PState :=
  match validateSymbol wl req.symbol with
  | none => .error .CoinNotAllowed
  | some coinId =>
      if req.qty ≤ 0 then .error .BadQty
      else
        match latest coinId with
        | none => .error .PriceUnavailable
        | some px =>
            if px = 0 then .error .PriceUnavailable
            else
              match tradeTxn st coinId req.side req.qty px
                  (round8 (px * req.qty)) ts with
              | .error e => .error e
              | .ok ws => .ok (ws.foldl applyWrite st)

/-- The observable outcome of one request: the post-request state (the
original state when the route rolled back or rejected) and the error if
any. -/
def runTrade (wl : List String) (latest : String → Option ℚ) (ts : ℤ)
    (st : PState) (req : TradeReq) : PState × Option TradeErr :=
  match executeTrade wl latest ts st req with
  | .ok st' => (st', none)
  | .error e => (st, some e)

/-- One request together with its environment (whitelist, latest-price
snapshot at that moment, insertion timestamp). -/
structure StepInput where
  wl : List String
  latest : String → Option ℚ
  ts : ℤ
  req : TradeReq

/-- Run a sequence of trade requests against a portfolio (failed requests
leave the state unchanged). -/
def runTrace (inputs : List StepInput) (st : PState) : PState :=
  inputs.foldl (fun s i => (runTrade i.wl i.latest i.ts s i.req).1) st

/-- A portfolio state reachable from a fresh portfolio by trade requests. -/
def Reachable (st : PState) : Prop :=
  ∃ inputs : List StepInput, runTrace inputs initP = st

/-! ## Price store and portfolio valuator -/

/-- The read side of the price store: the minute-bucketed historical series
`price_points_min` (rows `(ts_min, price_usd)` per symbol; the primary key
makes `ts_min` unique per symbol) and the `prices_latest` snapshot. -/
structure PriceStore where
  hist : String → List (ℤ × ℚ)
  latest : String → Option ℚ

/-- `SELECT price_usd FROM price_points_min WHERE symbol = $1 AND ts_min <= $2
ORDER BY ts_min DESC LIMIT 1`: among the rows with bucket time `≤ asOf`, the
price of the one with the greatest bucket time (rows are unique per bucket;
an earlier-listed row wins a hypothetical tie, matching the table's
first-write-wins inserts). -/
def histAtOrBefore (rows : List (ℤ × ℚ)) (asOf : ℤ) : Option ℚ :=
  rows.foldl
    (fun best row =>
      if row.1 ≤ asOf then
        match best with
        | none => some row
        | some b => if b.1 < row.1 then some row else some b
      else best)
    none |>.map (·.2)

/-- `getPriceAtOrBefore(symbol, asOf)`: latest historical minute bucket at or
before `asOf`; falling back to the `prices_latest` snapshot; falling back to
`0`. -/
def getPriceAtOrBefore (ps : PriceStore) (sym : String) (asOf : ℤ) : ℚ :=
  match histAtOrBefore (ps.hist sym) asOf with
  | some p => p
  | none =>
      match ps.latest sym with
      | some p => p
      | none => 0

/-- One iteration of the replay loop in `getPortfolioValueAtTime`:
`cost = qty * price` (unrounded); BUY debits cash and adds to the holding,
SELL credits cash, subtracts, and deletes the entry at or below zero. -/
def replayStep (acc : ℚ × Holdings) (t : TradeRec) : ℚ × Holdings :=
  let cost := t.qty * t.price
  match t.side with
  | .BUY => (acc.1 - cost, upsertH acc.2 t.symbol (getQty acc.2 t.symbol + t.qty))
  | .SELL =>
      let h := upsertH acc.2 t.symbol (getQty acc.2 t.symbol - t.qty)
      (acc.1 + cost, if getQty acc.2 t.symbol - t.qty ≤ 0 then deleteH h t.symbol else h)

/-- Replay a trade list from the initial endowment
(`cash = 100000`, empty holdings). -/
def replayAll (trades : List TradeRec) : ℚ × Holdings :=
  trades.foldl replayStep (100000, [])

/-- The result record of `getPortfolioValueAtTime`. -/
structure ValueResult where
  cash : ℚ
  cryptoValue : ℚ
  totalValue : ℚ
  holdings : Holdings
  prices : List (String × ℚ)
deriving DecidableEq, Repr

/-- `getPortfolioValueAtTime({userId, leagueId, asOf})`: filters the
(time-ascending) trade rows of the portfolio to those with
`created_at ≤ asOf`, replays them from the fixed initial endowment, then
prices every remaining holdings key with `getPriceAtOrBefore`. -/
def getPortfolioValueAtTime (ps : PriceStore) (trades : List TradeRec)
    (asOf : ℤ) : ValueResult :=
  let tr := trades.filter (fun t => t.ts ≤ asOf)
  let acc := tr.foldl replayStep (100000, [])
  let cash := acc.1
  let holdings := acc.2
  let prices := holdings.map (fun h => (h.1, getPriceAtOrBefore ps h.1 asOf))
  let cryptoValue := (holdings.map (fun h => h.2 * getPriceAtOrBefore ps h.1 asOf)).sum
  { cash := cash
    cryptoValue := cryptoValue
    totalValue := cash + cryptoValue
    holdings := holdings
    prices := prices }

/-! ## Spec-side valuator (for the refinement claim)

The following definitions follow the words of spec §4.2 (`valueAt`), to be
compared with the source-derived `getPortfolioValueAtTime` above. -/

/-- Spec §4.2 / §5: "prefer the latest historical price-bucket at or before
`asOf`; if none exists, fall back to the current latest-price snapshot; if
neither exists, treat the asset's price as zero". -/
def specBestPrice (ps : PriceStore) (sym : String) (asOf : ℤ) : ℚ :=
  match histAtOrBefore (ps.hist sym) asOf with
  | some p => p
  | none => (ps.latest sym).getD 0

/-- Spec §4.2: "BUY decreases cash and increases holding; SELL increases
cash and decreases holding (deleting the entry at or below zero)". -/
def specReplayTrade (acc : ℚ × Holdings) (t : TradeRec) : ℚ × Holdings :=
  match t.side with
  | .BUY => (acc.1 - t.qty * t.price,
             upsertH acc.2 t.symbol (getQty acc.2 t.symbol + t.qty))
  | .SELL =>
      let q := getQty acc.2 t.symbol - t.qty
      (acc.1 + t.qty * t.price,
       if q ≤ 0 then deleteH (upsertH acc.2 t.symbol q) t.symbol
       else upsertH acc.2 t.symbol q)

/-- Spec §4.2 `valueAt(user, league, asOf)`: start from the fixed initial
endowment and an empty holdings map, replay every trade with
`timestamp ≤ asOf` in the given (timestamp-ascending) order, then value each
remaining non-zero holding at its best available price. -/
def valueAtSpec (ps : PriceStore) (trades : List TradeRec) (asOf : ℤ) :
    ValueResult :=
  let acc := (trades.filter (fun t => t.ts ≤ asOf)).foldl specReplayTrade
      (100000, [])
  let nonzero := acc.2.filter (fun h => ¬ h.2 = 0)
  let prices := nonzero.map (fun h => (h.1, specBestPrice ps h.1 asOf))
  let cryptoValue := (nonzero.map (fun h => h.2 * specBestPrice ps h.1 asOf)).sum
  { cash := acc.1
    cryptoValue := cryptoValue
    totalValue := acc.1 + cryptoValue
    holdings := acc.2
    prices := prices }

/-! ## Head-to-head matchup scorer -/

/-- Matchup outcome string of `scoreHeadToHeadMatchup`. -/
inductive MatchResult where
  | HOME_WIN
  | AWAY_WIN
  | TIE
deriving DecidableEq, Repr

/-- The fields of the scorer's result relevant to scoring. -/
structure ScoreOutcome where
  effectiveEnd : ℤ
  homeStartValue : ℚ
  homeEndValue : ℚ
  homeProfit : ℚ
  awayStartValue : ℚ
  awayEndValue : ℚ
  awayProfit : ℚ
  winnerUserId : Option ℕ
  result : MatchResult
deriving DecidableEq, Repr

/-- `scoreHeadToHeadMatchup`: each side is valued at the round start and at
`effectiveEnd` (now, clipped to the round end); profit beyond `EPS = 0.0001`
decides the winner, otherwise the absolute `effectiveEnd` total values do,
otherwise it is a TIE. `homeTrades`/`awayTrades` are the two users' trade
rows for the league. -/
def scoreHeadToHeadMatchup (ps : PriceStore)
    (homeUserId awayUserId : ℕ) (homeTrades awayTrades : List TradeRec)
    (roundStart roundEnd now : ℤ) : ScoreOutcome :=
  let effectiveEnd := if now < roundEnd then now else roundEnd
  let homeStart := getPortfolioValueAtTime ps homeTrades roundStart
  let homeEnd := getPortfolioValueAtTime ps homeTrades effectiveEnd
  let awayStart := getPortfolioValueAtTime ps awayTrades roundStart
  let awayEnd := getPortfolioValueAtTime ps awayTrades effectiveEnd
  let homeProfit := homeEnd.totalValue - homeStart.totalValue
  let awayProfit := awayEnd.totalValue - awayStart.totalValue
  let EPS : ℚ := 1/10000
  let diff := homeProfit - awayProfit
  let wr : Option ℕ × MatchResult :=
    if EPS < |diff| then
      if 0 < diff then (some homeUserId, .HOME_WIN)
      else (some awayUserId, .AWAY_WIN)
    else
      let valueDiff := homeEnd.totalValue - awayEnd.totalValue
      if EPS < |valueDiff| then
        if 0 < valueDiff then (some homeUserId, .HOME_WIN)
        else (some awayUserId, .AWAY_WIN)
      else (none, .TIE)
  { effectiveEnd := effectiveEnd
    homeStartValue := homeStart.totalValue
    homeEndValue := homeEnd.totalValue
    homeProfit := homeProfit
    awayStartValue := awayStart.totalValue
    awayEndValue := awayEnd.totalValue
    awayProfit := awayProfit
    winnerUserId := wr.1
    result := wr.2 }

/-- A trade record whose cost needed no rounding: its price × quantity is
exact at 8 decimal places. -/
def Exact8 (t : TradeRec) : Prop :=
  round8 (t.price * t.qty) = t.price * t.qty

/-! ## League schedule generator -/

/-- A league member: `{ id, username }` (user ids are non-null integers). -/
structure Member where
  id : ℕ
  username : String
deriving DecidableEq, Repr

/-- A roster slot in the rotation array: a real member or the synthetic BYE
placeholder `{ id: null, username: "BYE" }`. -/
structure Player where
  id : Option ℕ
  username : String
deriving DecidableEq, Repr

/-- One entry of a round: a head-to-head matchup
`{homeUserId, awayUserId, ...}` or a bye entry `{byeUserId, byeUsername}`. -/
inductive Entry where
  | game (homeUserId awayUserId : ℕ) (homeUsername awayUsername : String)
  | bye (byeUserId : ℕ) (byeUsername : String)
deriving DecidableEq, Repr

/-- `players.push({id:null, username:"BYE"})` when the member count is
odd. -/
def padPlayers (members : List Member) : List Player :=
  let players := members.map (fun m => ⟨some m.id, m.username⟩)
  if players.length % 2 = 1 then players ++ [⟨none, "BYE"⟩] else players

/-- The body of the pairing loop at index `i`: `home = arr[i]`,
`away = arr[numPlayers - 1 - i]`; both real → matchup; exactly one real →
bye entry; neither real → nothing (an out-of-range JS access yields
`undefined`, whose `homeHasPlayer` test is false). -/
def emitPair (arr : List Player) (i : ℕ) : Option Entry :=
  match arr.get? i, arr.get? (arr.length - 1 - i) with
  | some h, some a =>
      match h.id, a.id with
      | some hid, some aid => some (.game hid aid h.username a.username)
      | some hid, none => some (.bye hid h.username)
      | none, some aid => some (.bye aid a.username)
      | none, none => none
  | some h, none =>
      match h.id with
      | some hid => some (.bye hid h.username)
      | none => none
  | none, some a =>
      match a.id with
      | some aid => some (.bye aid a.username)
      | none => none
  | none, none => none

/-- One base round of the circle method: pair `arr[i]` with
`arr[numPlayers - 1 - i]` for `i < numPlayers / 2`. -/
def roundMatchups (arr : List Player) : List Entry :=
  (List.range (arr.length / 2)).filterMap (emitPair arr)

/-- The rotation step `rest.unshift(rest.pop()); arr = [fixed, ...rest]`:
keep the head fixed and rotate the tail right by one.  (For a tail of
length ≥ 1, the only shape arising here since the padded roster has even
length ≥ 2.) -/
def rotateOnce {α : Type} : List α → List α
  | [] => []
  | f :: rest =>
      match rest with
      | [] => [f]
      | x :: xs => f :: ((x :: xs).getLast (by simp) :: (x :: xs).dropLast)

/-- The `baseRoundMatchups` array: round `r` is the pairing of the roster
rotated `r` times (the source emits a round and then rotates, which yields
exactly the pairing of the `r`-fold rotation). -/
def baseRoundsList (players : List Player) : List (List Entry) :=
  (List.range (players.length - 1)).map
    (fun r => roundMatchups (rotateOnce^[r] players))

/-- League scheduling configuration: `created_at` (epoch ms) and the
`settings` JSON fields read by the scheduler.  `matchupCount` is
`Number(settings.matchupCount)`, with `none` standing for NaN (absent or
non-numeric). -/
structure LeagueCfg where
  createdAt : ℤ
  matchupFrequency : Option String
  matchupCount : Option ℚ

/-- One scheduled round. -/
structure Round where
  roundIndex : ℕ
  label : String
  start : ℤ
  endTs : ℤ
  matchups : List Entry
deriving DecidableEq, Repr

/-- The round interval in milliseconds (`FAST_SCHEDULE` shrinks both modes
to 5 minutes; otherwise DAILY = 1 day, anything else = 7 days). -/
def intervalMsOf (fast : Bool) (isDaily : Bool) : ℤ :=
  if isDaily then
    if fast then 5 * 60 * 1000 else 24 * 60 * 60 * 1000
  else
    if fast then 5 * 60 * 1000 else 7 * 24 * 60 * 60 * 1000

/-- `String.prototype.toUpperCase` over the characters. -/
def toUpperStr (s : String) : String :=
  ⟨s.data.map Char.toUpper⟩

/-- `(settings.matchupFrequency || "WEEKLY").toUpperCase()`. -/
def freqOf (cfg : LeagueCfg) : String :=
  toUpperStr (match cfg.matchupFrequency with
    | some s => if s = "" then "WEEKLY" else s
    | none => "WEEKLY")

/-- `freq === "DAILY"`. -/
def schedIsDaily (cfg : LeagueCfg) : Bool :=
  freqOf cfg = "DAILY"

/-- The interval used by the schedule for this league. -/
def schedInterval (fast : Bool) (cfg : LeagueCfg) : ℤ :=
  intervalMsOf fast (schedIsDaily cfg)

/-- `baseRounds = numPlayers - 1` over the padded roster. -/
def schedBaseRounds (members : List Member) : ℕ :=
  (padPlayers members).length - 1

/-- The number of rounds actually scheduled: the matchup-count setting
(`Number(settings.matchupCount)`, positive integer) capped at 1000 takes
priority, otherwise the natural base-round count; a final guard restores
the base count for a non-positive result. -/
def schedTotalRounds (cfg : LeagueCfg) (members : List Member) : ℕ :=
  let t1 : ℤ := match cfg.matchupCount with
    | some q =>
        if q.den = 1 ∧ 0 < q then min q.num 1000
        else (schedBaseRounds members : ℤ)
    | none => (schedBaseRounds members : ℤ)
  if t1 ≤ 0 then schedBaseRounds members else t1.toNat

/-- `computeLeagueSchedule({league, members})`. -/
def computeLeagueSchedule (fast : Bool) (cfg : LeagueCfg)
    (members : List Member) : List Round :=
  if members.length < 2 then []
  else
    (List.range (schedTotalRounds cfg members)).map (fun (r : ℕ) =>
      let roundStart := cfg.createdAt + (r : ℤ) * schedInterval fast cfg
      { roundIndex := r + 1
        label := (if schedIsDaily cfg then "Day " else "Week ") ++
          toString (r + 1)
        start := roundStart
        endTs := roundStart + schedInterval fast cfg - 1
        matchups := (baseRoundsList (padPlayers members)).getD
          (r % schedBaseRounds members) [] })

/-- The user ids mentioned by one schedule entry. -/
def entryIds : Entry → List ℕ
  | .game h a _ _ => [h, a]
  | .bye b _ => [b]

/-- All user ids appearing in one round's entries. -/
def roundIds (entries : List Entry) : List ℕ :=
  entries.flatMap entryIds

/-- The ids contributed by one roster slot (none for the BYE). -/
def pIds (p : Player) : List ℕ :=
  match p.id with
  | some v => [v]
  | none => []

/-- The ids contributed by a possibly-missing roster slot. -/
def optIds : Option Player → List ℕ
  | some p => pIds p
  | none => []

/-- The real (non-BYE) ids of a roster slot list. -/
def realIds (arr : List Player) : List ℕ :=
  arr.flatMap pIds

/-! ## Holdings lemmas -/

/-- The symbols of a holdings list are pairwise distinct (the table's
primary key `(user_id, league_id, symbol)`). -/
def HKeysNodup (h : Holdings) : Prop :=
  (h.map Prod.fst).Nodup

theorem lookupH_upsertH_self (h : Holdings) (s : String) (v : ℚ) :
    lookupH (upsertH h s v) s = some v := by
  induction h with
  | nil => simp [upsertH, lookupH]
  | cons hd tl ih =>
      obtain ⟨s', q⟩ := hd
      by_cases hs : s' = s
      · simp [upsertH, lookupH, hs]
      · simp [upsertH, lookupH, hs, ih]

theorem lookupH_upsertH_ne (h : Holdings) (s t : String) (v : ℚ)
    (hne : t ≠ s) : lookupH (upsertH h s v) t = lookupH h t := by
  induction h with
  | nil => simp [upsertH, lookupH, if_neg (Ne.symm hne)]
  | cons hd tl ih =>
      obtain ⟨s', q⟩ := hd
      by_cases hs : s' = s
      · subst hs
        simp [upsertH, lookupH, if_neg (Ne.symm hne)]
      · simp only [upsertH, if_neg hs, lookupH]
        by_cases ht : s' = t <;> simp [ht, ih]

theorem lookupH_deleteH_ne (h : Holdings) (s t : String) (hne : t ≠ s) :
    lookupH (deleteH h s) t = lookupH h t := by
  induction h with
  | nil => simp [deleteH]
  | cons hd tl ih =>
      obtain ⟨s', q⟩ := hd
      by_cases hs : s' = s
      · subst hs
        simp [deleteH, lookupH, if_neg (Ne.symm hne)]
      · simp only [deleteH, if_neg hs, lookupH]
        by_cases ht : s' = t <;> simp [ht, ih]

theorem lookupH_eq_none_of_not_mem (h : Holdings) (s : String)
    (hnot : s ∉ h.map Prod.fst) : lookupH h s = none := by
  induction h with
  | nil => simp [lookupH]
  | cons hd tl ih =>
      obtain ⟨s', q⟩ := hd
      simp only [List.map_cons, List.mem_cons] at hnot
      push_neg at hnot
      simp only [lookupH, if_neg (Ne.symm hnot.1)]
      exact ih hnot.2

theorem lookupH_deleteH_self (h : Holdings) (s : String)
    (hn : HKeysNodup h) : lookupH (deleteH h s) s = none := by
  induction h with
  | nil => simp [deleteH, lookupH]
  | cons hd tl ih =>
      obtain ⟨s', q⟩ := hd
      have hn' : HKeysNodup tl := (List.nodup_cons.mp hn).2
      by_cases hs : s' = s
      · subst hs
        simp only [deleteH, if_pos rfl]
        exact lookupH_eq_none_of_not_mem tl s' (List.nodup_cons.mp hn).1
      · simp [deleteH, lookupH, hs, ih hn']

theorem deleteH_upsertH (h : Holdings) (s : String) (v : ℚ) :
    deleteH (upsertH h s v) s = deleteH h s := by
  induction h with
  | nil => simp [upsertH, deleteH]
  | cons hd tl ih =>
      obtain ⟨s', q⟩ := hd
      by_cases hs : s' = s
      · simp [upsertH, deleteH, hs]
      · simp [upsertH, deleteH, hs, ih]

/-! ## Trade route lemmas -/

/-- Once the validations pass, the route reduces to its transaction body. -/
theorem executeTrade_eq_txn (wl : List String) (latest : String → Option ℚ)
    (ts : ℤ) (st : PState) (req : TradeReq) (cid : String) (px : ℚ)
    (hsym : validateSymbol wl req.symbol = some cid)
    (hq : 0 < req.qty) (hpx : latest cid = some px) (hpx0 : px ≠ 0) :
    executeTrade wl latest ts st req =
      match tradeTxn st cid req.side req.qty px (round8 (px * req.qty)) ts with
      | .error e => .error e
      | .ok ws => .ok (ws.foldl applyWrite st) := by
  unfold executeTrade
  rw [hsym]
  simp only [if_neg (not_le.mpr hq)]
  rw [hpx]
  simp only [if_neg hpx0]

theorem getQty_upsertH_self (h : Holdings) (s : String) (v : ℚ) :
    getQty (upsertH h s v) s = v := by
  simp [getQty, lookupH_upsertH_self]

/-- The committed writes of a successful BUY, applied in order. -/
theorem buy_writes_apply (st : PState) (cid : String) (qty px cost : ℚ)
    (ts : ℤ) :
    ([Write.updateCash (st.cash - cost),
      Write.upsertHolding cid (getQty st.holdings cid + qty),
      Write.insertTrade ⟨cid, .BUY, qty, px, cost, ts⟩].foldl applyWrite st) =
      ⟨st.cash - cost,
       upsertH st.holdings cid (getQty st.holdings cid + qty),
       st.trades ++ [⟨cid, .BUY, qty, px, cost, ts⟩]⟩ := by
  simp [applyWrite]

/-- Claim C2: for every BUY request with a whitelisted asset, quantity > 0
and an available nonzero latest price, the route computes
`cost = round8(price × quantity)`, fails with `InsufficientFunds` exactly
when `cash < cost`, and otherwise debits cash by `cost`, increments (or
creates) the holding by the quantity and appends exactly one BUY trade
record with that quantity, price and cost. -/
theorem claim_C2_buy_execution (wl : List String)
    (latest : String → Option ℚ) (ts : ℤ) (st : PState) (req : TradeReq)
    (cid : String) (px : ℚ)
    (hsym : validateSymbol wl req.symbol = some cid)
    (hside : req.side = .BUY) (hq : 0 < req.qty)
    (hpx : latest cid = some px) (hpx0 : px ≠ 0) :
    ((runTrade wl latest ts st req).2 = some .InsufficientFunds ↔
        st.cash < round8 (px * req.qty)) ∧
    (st.cash < round8 (px * req.qty) →
        runTrade wl latest ts st req = (st, some .InsufficientFunds)) ∧
    (¬ st.cash < round8 (px * req.qty) →
        runTrade wl latest ts st req =
          (⟨st.cash - round8 (px * req.qty),
            upsertH st.holdings cid (getQty st.holdings cid + req.qty),
            st.trades ++
              [⟨cid, .BUY, req.qty, px, round8 (px * req.qty), ts⟩]⟩,
           none) ∧
        getQty (runTrade wl latest ts st req).1.holdings cid =
          getQty st.holdings cid + req.qty) := by
  have he := executeTrade_eq_txn wl latest ts st req cid px hsym hq hpx hpx0
  by_cases hc : st.cash < round8 (px * req.qty)
  · have hr : runTrade wl latest ts st req = (st, some .InsufficientFunds) := by
      simp [runTrade, he, tradeTxn, hside, if_pos hc]
    refine ⟨?_, fun _ => hr, fun hcon => absurd hc hcon⟩
    rw [hr]
    simp [hc]
  · have hr : runTrade wl latest ts st req =
        (⟨st.cash - round8 (px * req.qty),
          upsertH st.holdings cid (getQty st.holdings cid + req.qty),
          st.trades ++
            [⟨cid, .BUY, req.qty, px, round8 (px * req.qty), ts⟩]⟩,
         none) := by
      simp only [runTrade, he, tradeTxn, hside, if_neg hc]
      rw [buy_writes_apply]
    refine ⟨?_, fun hcon => absurd hcon hc, fun _ => ⟨hr, ?_⟩⟩
    · rw [hr]
      simp [hc]
    · rw [hr]
      exact getQty_upsertH_self st.holdings cid (getQty st.holdings cid + req.qty)

/-- Witness for claim C2: a concrete BUY of 2 bitcoin at price 100 against
a fresh portfolio debits 200 and creates the holding. -/
theorem claim_C2_buy_execution_witness :
    runTrade ["bitcoin"] (fun s => if s = "bitcoin" then some 100 else none)
        10 initP ⟨"bitcoin", .BUY, 2⟩ =
      (⟨99800, [("bitcoin", 2)],
        [⟨"bitcoin", .BUY, 2, 100, 200, 10⟩]⟩, none) := by
  have h := claim_C2_buy_execution ["bitcoin"]
    (fun s => if s = "bitcoin" then some 100 else none) 10 initP
    ⟨"bitcoin", .BUY, 2⟩ "bitcoin" 100 (by decide) rfl (by norm_num)
    (by decide) (by norm_num)
  have h3 := (h.2.2 (by
    show ¬ ((initP.cash : ℚ) < round8 (100 * 2))
    norm_num [round8, initP])).1
  rw [h3]
  norm_num [initP, getQty, lookupH, upsertH, round8]

/-- The committed writes of a successful SELL that empties the holding. -/
theorem sell_writes_apply_del (st : PState) (cid : String) (c : ℚ)
    (t : TradeRec) :
    ([Write.updateCash c, Write.deleteHolding cid,
      Write.insertTrade t].foldl applyWrite st) =
      ⟨c, deleteH st.holdings cid, st.trades ++ [t]⟩ := by
  simp [applyWrite]

/-- The committed writes of a successful SELL that keeps a positive
holding. -/
theorem sell_writes_apply_ups (st : PState) (cid : String) (c q : ℚ)
    (t : TradeRec) :
    ([Write.updateCash c, Write.upsertHolding cid q,
      Write.insertTrade t].foldl applyWrite st) =
      ⟨c, upsertH st.holdings cid q, st.trades ++ [t]⟩ := by
  simp [applyWrite]

/-- Claim C3: for every SELL request with a whitelisted asset, quantity > 0
and an available nonzero latest price, the route fails with
`InsufficientHoldings` exactly when the current holding quantity is below
the requested quantity; otherwise it credits cash by the cost, decrements
the holding, deletes the holding row when the resulting quantity is ≤ 0
(never keeping it at zero), and appends exactly one SELL trade record. -/
theorem claim_C3_sell_execution (wl : List String)
    (latest : String → Option ℚ) (ts : ℤ) (st : PState) (req : TradeReq)
    (cid : String) (px : ℚ)
    (hsym : validateSymbol wl req.symbol = some cid)
    (hside : req.side = .SELL) (hq : 0 < req.qty)
    (hpx : latest cid = some px) (hpx0 : px ≠ 0)
    (hnd : HKeysNodup st.holdings) :
    ((runTrade wl latest ts st req).2 = some .InsufficientHoldings ↔
        getQty st.holdings cid < req.qty) ∧
    (getQty st.holdings cid < req.qty →
        runTrade wl latest ts st req = (st, some .InsufficientHoldings)) ∧
    (¬ getQty st.holdings cid < req.qty →
        runTrade wl latest ts st req =
          (⟨st.cash + round8 (px * req.qty),
            if getQty st.holdings cid - req.qty ≤ 0 then
              deleteH st.holdings cid
            else upsertH st.holdings cid (getQty st.holdings cid - req.qty),
            st.trades ++
              [⟨cid, .SELL, req.qty, px, round8 (px * req.qty), ts⟩]⟩,
           none) ∧
        lookupH (runTrade wl latest ts st req).1.holdings cid =
          (if getQty st.holdings cid - req.qty ≤ 0 then none
           else some (getQty st.holdings cid - req.qty))) := by
  have he := executeTrade_eq_txn wl latest ts st req cid px hsym hq hpx hpx0
  by_cases hc : getQty st.holdings cid < req.qty
  · have hr : runTrade wl latest ts st req =
        (st, some .InsufficientHoldings) := by
      simp [runTrade, he, tradeTxn, hside, if_pos hc]
    refine ⟨?_, fun _ => hr, fun hcon => absurd hc hcon⟩
    rw [hr]
    simp [hc]
  · by_cases hz : getQty st.holdings cid - req.qty ≤ 0
    · have hr : runTrade wl latest ts st req =
          (⟨st.cash + round8 (px * req.qty), deleteH st.holdings cid,
            st.trades ++
              [⟨cid, .SELL, req.qty, px, round8 (px * req.qty), ts⟩]⟩,
           none) := by
        simp only [runTrade, he, tradeTxn, hside, if_neg hc, if_pos hz]
        rw [sell_writes_apply_del]
      refine ⟨?_, fun hcon => absurd hcon hc, fun _ => ⟨?_, ?_⟩⟩
      · rw [hr]
        simp [hc]
      · rw [hr, if_pos hz]
      · rw [hr, if_pos hz]
        exact lookupH_deleteH_self st.holdings cid hnd
    · have hr : runTrade wl latest ts st req =
          (⟨st.cash + round8 (px * req.qty),
            upsertH st.holdings cid (getQty st.holdings cid - req.qty),
            st.trades ++
              [⟨cid, .SELL, req.qty, px, round8 (px * req.qty), ts⟩]⟩,
           none) := by
        simp only [runTrade, he, tradeTxn, hside, if_neg hc, if_neg hz]
        rw [sell_writes_apply_ups]
      refine ⟨?_, fun hcon => absurd hcon hc, fun _ => ⟨?_, ?_⟩⟩
      · rw [hr]
        simp [hc]
      · rw [hr, if_neg hz]
      · rw [hr, if_neg hz]
        exact lookupH_upsertH_self st.holdings cid _

/-- Witness for claim C3: selling 1 of a 2-unit bitcoin holding at price
120 credits 120 and leaves a 1-unit row. -/
theorem claim_C3_sell_execution_witness :
    runTrade ["bitcoin"] (fun s => if s = "bitcoin" then some 120 else none)
        20 ⟨99800, [("bitcoin", 2)], []⟩ ⟨"bitcoin", .SELL, 1⟩ =
      (⟨99920, [("bitcoin", 1)],
        [⟨"bitcoin", .SELL, 1, 120, 120, 20⟩]⟩, none) := by
  have h := claim_C3_sell_execution ["bitcoin"]
    (fun s => if s = "bitcoin" then some 120 else none) 20
    ⟨99800, [("bitcoin", 2)], []⟩ ⟨"bitcoin", .SELL, 1⟩ "bitcoin" 120
    (by decide) rfl (by norm_num) (by decide) (by norm_num)
    (by unfold HKeysNodup; decide)
  have hge : ¬ getQty ([("bitcoin", 2)] : Holdings) "bitcoin" < (1 : ℚ) := by
    norm_num [getQty, lookupH]
  have h3 := (h.2.2 hge).1
  rw [h3]
  norm_num [getQty, lookupH, upsertH, round8]

/-- A successful run of the route decomposes into passed validations, a
successful transaction body, and the committed writes. -/
theorem executeTrade_ok_iff (wl : List String) (latest : String → Option ℚ)
    (ts : ℤ) (st st' : PState) (req : TradeReq) :
    executeTrade wl latest ts st req = .ok st' ↔
      ∃ cid px ws, validateSymbol wl req.symbol = some cid ∧
        0 < req.qty ∧ latest cid = some px ∧ px ≠ 0 ∧
        tradeTxn st cid req.side req.qty px (round8 (px * req.qty)) ts =
          .ok ws ∧
        st' = ws.foldl applyWrite st := by
  constructor
  · intro hE
    unfold executeTrade at hE
    split at hE
    · exact absurd hE (by simp)
    · rename_i cid hsym
      split at hE
      · exact absurd hE (by simp)
      · rename_i hq
        split at hE
        · exact absurd hE (by simp)
        · rename_i px hpx
          split at hE
          · exact absurd hE (by simp)
          · rename_i hpx0
            split at hE
            · exact absurd hE (by simp)
            · rename_i ws htxn
              refine ⟨cid, px, ws, hsym, not_le.mp hq, hpx, hpx0, htxn, ?_⟩
              simpa using hE.symm
  · rintro ⟨cid, px, ws, hsym, hq, hpx, hpx0, htxn, hst⟩
    have he := executeTrade_eq_txn wl latest ts st req cid px hsym hq hpx hpx0
    rw [he, htxn, hst]

/-- Only `insertTrade` writes touch the trade log, each appending its
record. -/
theorem foldl_applyWrite_trades (ws : List Write) (st : PState) :
    (ws.foldl applyWrite st).trades =
      st.trades ++ ws.filterMap Write.tradeOf := by
  induction ws generalizing st with
  | nil => simp
  | cons w tl ih =>
      cases w <;>
        simp [List.foldl_cons, ih, applyWrite, Write.tradeOf, List.filterMap]

/-- A successful transaction body emits exactly one `insertTrade`, carrying
the validated symbol, side, quantity, price and cost. -/
theorem tradeTxn_ok_trades (st : PState) (cid : String) (side : Side)
    (qty px cost : ℚ) (ts : ℤ) (ws : List Write)
    (htxn : tradeTxn st cid side qty px cost ts = .ok ws) :
    ws.filterMap Write.tradeOf = [⟨cid, side, qty, px, cost, ts⟩] := by
  cases side
  · simp only [tradeTxn] at htxn
    split at htxn
    · exact absurd htxn (by simp)
    · simp only [Except.ok.injEq] at htxn
      subst htxn
      simp [Write.tradeOf, List.filterMap]
  · simp only [tradeTxn] at htxn
    split at htxn
    · exact absurd htxn (by simp)
    · split at htxn <;>
      · simp only [Except.ok.injEq] at htxn
        subst htxn
        simp [Write.tradeOf, List.filterMap]

/-- A running example environment: bitcoin alone is whitelisted and priced
at 100. -/
def exLatest : String → Option ℚ :=
  fun s => if s = "bitcoin" then some 100 else none

/-- The portfolio after the example BUY of 2 bitcoin at 100. -/
def exBuyState : PState :=
  ⟨99800, [("bitcoin", 2)], [⟨"bitcoin", .BUY, 2, 100, 200, 10⟩]⟩

theorem runTrade_buy_ex :
    runTrade ["bitcoin"] exLatest 10 initP ⟨"bitcoin", .BUY, 2⟩ =
      (exBuyState, none) := by
  have he := executeTrade_eq_txn ["bitcoin"] exLatest 10 initP
    ⟨"bitcoin", .BUY, 2⟩ "bitcoin" 100 (by decide) (by norm_num)
    (by decide) (by norm_num)
  have hc : ¬ ((initP.cash : ℚ) < round8 (100 * 2)) := by
    norm_num [round8, initP]
  simp only [runTrade, he, tradeTxn, if_neg hc]
  rw [buy_writes_apply]
  norm_num [exBuyState, initP, getQty, lookupH, upsertH, round8]

theorem runTrade_sellfail_ex :
    runTrade ["bitcoin"] exLatest 10 initP ⟨"bitcoin", .SELL, 1⟩ =
      (initP, some .InsufficientHoldings) := by
  have he := executeTrade_eq_txn ["bitcoin"] exLatest 10 initP
    ⟨"bitcoin", .SELL, 1⟩ "bitcoin" 100 (by decide) (by norm_num)
    (by decide) (by norm_num)
  have hc : getQty initP.holdings "bitcoin" < (1 : ℚ) := by
    norm_num [initP, getQty, lookupH]
  simp [runTrade, he, tradeTxn, if_pos hc]

/-- Claim C4: trade atomicity.  On any failure the observable state is the
pre-request state (zero trade rows appended); on success the trade log
grows by exactly one row; and every successful transaction body commits
exactly one `insertTrade` write. -/
theorem claim_C4_trade_atomicity (wl : List String)
    (latest : String → Option ℚ) (ts : ℤ) (st : PState) (req : TradeReq) :
    (∀ e : TradeErr, (runTrade wl latest ts st req).2 = some e →
        (runTrade wl latest ts st req).1 = st) ∧
    ((runTrade wl latest ts st req).2 = none →
        ∃ t : TradeRec,
          (runTrade wl latest ts st req).1.trades = st.trades ++ [t]) ∧
    (∀ (cid : String) (side : Side) (qty px cost : ℚ) (ws : List Write),
        tradeTxn st cid side qty px cost ts = .ok ws →
        ws.filterMap Write.tradeOf = [⟨cid, side, qty, px, cost, ts⟩]) := by
  refine ⟨?_, ?_, ?_⟩
  · intro e hsome
    cases hE : executeTrade wl latest ts st req <;> simp [runTrade, hE]
    · rw [runTrade, hE] at hsome
      simp at hsome
  · intro hnone
    cases hE : executeTrade wl latest ts st req with
    | error e =>
        rw [runTrade, hE] at hnone
        simp at hnone
    | ok st' =>
        obtain ⟨cid, px, ws, _, _, _, _, htxn, hst⟩ :=
          (executeTrade_ok_iff wl latest ts st st' req).mp hE
        refine ⟨⟨cid, req.side, req.qty, px, round8 (px * req.qty), ts⟩, ?_⟩
        rw [runTrade, hE]
        simp only
        rw [hst, foldl_applyWrite_trades,
          tradeTxn_ok_trades st cid req.side req.qty px
            (round8 (px * req.qty)) ts ws htxn]
  · intro cid side qty px cost ws htxn
    exact tradeTxn_ok_trades st cid side qty px cost ts ws htxn

/-- Witness for claim C4: the concrete successful BUY appends one record,
and a concrete failing SELL leaves the fresh portfolio untouched. -/
theorem claim_C4_trade_atomicity_witness :
    ((runTrade ["bitcoin"] exLatest 10 initP
        ⟨"bitcoin", .SELL, 1⟩).2 = some .InsufficientHoldings ∧
      (runTrade ["bitcoin"] exLatest 10 initP
        ⟨"bitcoin", .SELL, 1⟩).1 = initP) ∧
    ∃ t : TradeRec,
      (runTrade ["bitcoin"] exLatest 10 initP
        ⟨"bitcoin", .BUY, 2⟩).1.trades = initP.trades ++ [t] := by
  constructor
  · constructor
    · rw [runTrade_sellfail_ex]
    · exact (claim_C4_trade_atomicity ["bitcoin"] exLatest 10 initP
        ⟨"bitcoin", .SELL, 1⟩).1 .InsufficientHoldings
        (by rw [runTrade_sellfail_ex])
  · refine (claim_C4_trade_atomicity ["bitcoin"] exLatest 10 initP
      ⟨"bitcoin", .BUY, 2⟩).2.1 ?_
    rw [runTrade_buy_ex]

/-! ## Holdings positivity invariant -/

/-- Every holdings row has a strictly positive quantity. -/
def AllPos (h : Holdings) : Prop :=
  ∀ p ∈ h, 0 < p.2

theorem mem_upsertH (h : Holdings) (s : String) (v : ℚ) (p : String × ℚ)
    (hp : p ∈ upsertH h s v) : p ∈ h ∨ p = (s, v) := by
  induction h with
  | nil =>
      simp only [upsertH, List.mem_singleton] at hp
      exact Or.inr hp
  | cons hd tl ih =>
      obtain ⟨s', q⟩ := hd
      by_cases hs : s' = s
      · subst hs
        simp only [upsertH, if_true, eq_self_iff_true, List.mem_cons] at hp
        rcases hp with h1 | h1
        · exact Or.inr h1
        · exact Or.inl (List.mem_cons_of_mem _ h1)
      · simp only [upsertH, if_neg hs, List.mem_cons] at hp
        rcases hp with h1 | h1
        · exact Or.inl (List.mem_cons.mpr (Or.inl h1))
        · rcases ih h1 with h2 | h2
          · exact Or.inl (List.mem_cons_of_mem _ h2)
          · exact Or.inr h2

theorem mem_deleteH (h : Holdings) (s : String) (p : String × ℚ)
    (hp : p ∈ deleteH h s) : p ∈ h := by
  induction h with
  | nil => simpa [deleteH] using hp
  | cons hd tl ih =>
      obtain ⟨s', q⟩ := hd
      by_cases hs : s' = s
      · subst hs
        simp only [deleteH, if_true, eq_self_iff_true] at hp
        exact List.mem_cons_of_mem _ hp
      · simp only [deleteH, if_neg hs, List.mem_cons] at hp
        rcases hp with h1 | h1
        · exact List.mem_cons.mpr (Or.inl h1)
        · exact List.mem_cons_of_mem _ (ih h1)

theorem lookupH_mem (h : Holdings) (s : String) (q : ℚ)
    (hl : lookupH h s = some q) : (s, q) ∈ h := by
  induction h with
  | nil => simp [lookupH] at hl
  | cons hd tl ih =>
      obtain ⟨s', q'⟩ := hd
      by_cases hs : s' = s
      · subst hs
        simp only [lookupH, if_true, eq_self_iff_true,
          Option.some.injEq] at hl
        exact List.mem_cons.mpr (Or.inl (by rw [hl]))
      · simp only [lookupH, if_neg hs] at hl
        exact List.mem_cons_of_mem _ (ih hl)

theorem getQty_nonneg_of_AllPos (h : Holdings) (s : String)
    (hap : AllPos h) : 0 ≤ getQty h s := by
  unfold getQty
  cases hl : lookupH h s with
  | none => simp
  | some q => simpa using le_of_lt (hap (s, q) (lookupH_mem h s q hl))

/-- One trade request preserves strict positivity of all holdings rows. -/
theorem runTrade_preserves_AllPos (wl : List String)
    (latest : String → Option ℚ) (ts : ℤ) (st : PState) (req : TradeReq)
    (hap : AllPos st.holdings) :
    AllPos ((runTrade wl latest ts st req).1).holdings := by
  cases hE : executeTrade wl latest ts st req with
  | error e => simpa [runTrade, hE] using hap
  | ok st' =>
      obtain ⟨cid, px, ws, hsym, hq, hpx, hpx0, htxn, hst⟩ :=
        (executeTrade_ok_iff wl latest ts st st' req).mp hE
      have hcur : 0 ≤ getQty st.holdings cid := getQty_nonneg_of_AllPos _ _ hap
      simp only [runTrade, hE]
      cases hside : req.side
      · rw [hside] at htxn
        simp only [tradeTxn] at htxn
        split at htxn
        · exact absurd htxn (by simp)
        · simp only [Except.ok.injEq] at htxn
          subst htxn
          rw [hst, buy_writes_apply]
          intro p hp
          rcases mem_upsertH _ _ _ _ hp with hmem | hpe
          · exact hap p hmem
          · rw [hpe]
            exact add_pos_of_nonneg_of_pos hcur hq
      · rw [hside] at htxn
        simp only [tradeTxn] at htxn
        split at htxn
        · exact absurd htxn (by simp)
        · rename_i hge
          split at htxn
          · rename_i hz
            simp only [Except.ok.injEq] at htxn
            subst htxn
            rw [hst, sell_writes_apply_del]
            intro p hp
            exact hap p (mem_deleteH _ _ _ hp)
          · rename_i hz
            simp only [Except.ok.injEq] at htxn
            subst htxn
            rw [hst, sell_writes_apply_ups]
            intro p hp
            rcases mem_upsertH _ _ _ _ hp with hmem | hpe
            · exact hap p hmem
            · rw [hpe]
              exact lt_of_not_le hz

/-- Claim C6: in every reachable portfolio state all holding quantities are
≥ 0, and a SELL whose requested quantity exceeds the current holding is
rejected and leaves the state (cash and holdings) unchanged. -/
theorem claim_C6_holdings_nonneg :
    (∀ st : PState, Reachable st → ∀ p ∈ st.holdings, (0 : ℚ) ≤ p.2) ∧
    (∀ (wl : List String) (latest : String → Option ℚ) (ts : ℤ)
        (st : PState) (req : TradeReq) (cid : String),
        req.side = .SELL → validateSymbol wl req.symbol = some cid →
        getQty st.holdings cid < req.qty →
        (runTrade wl latest ts st req).1 = st ∧
        (runTrade wl latest ts st req).2 ≠ none) := by
  constructor
  · have hall : ∀ (inputs : List StepInput) (st0 : PState),
        AllPos st0.holdings → AllPos (runTrace inputs st0).holdings := by
      intro inputs
      induction inputs with
      | nil => intro st0 h0; simpa [runTrace]
      | cons i tl ih =>
          intro st0 h0
          have h1 := runTrade_preserves_AllPos i.wl i.latest i.ts st0 i.req h0
          simpa [runTrace, List.foldl_cons] using
            ih ((runTrade i.wl i.latest i.ts st0 i.req).1) h1
    rintro st ⟨inputs, rfl⟩ p hp
    exact le_of_lt (hall inputs initP (by intro p hp; simp [initP] at hp) p hp)
  · intro wl latest ts st req cid hside hsym hlt
    cases hE : executeTrade wl latest ts st req with
    | error e => simp [runTrade, hE]
    | ok st' =>
        obtain ⟨cid', px, ws, hsym', hq, hpx, hpx0, htxn, hst⟩ :=
          (executeTrade_ok_iff wl latest ts st st' req).mp hE
        rw [hsym] at hsym'
        have hcid : cid' = cid := by simpa using hsym'.symm
        subst hcid
        rw [hside] at htxn
        simp only [tradeTxn] at htxn
        rw [if_pos hlt] at htxn
        exact absurd htxn (by simp)

/-- Witness for claim C6: the state after the example BUY is reachable and
its single holding is non-negative; and a 1-unit SELL against an empty
portfolio is rejected without effect. -/
theorem claim_C6_holdings_nonneg_witness :
    ((0 : ℚ) ≤ 2) ∧
    ((runTrade ["bitcoin"] exLatest 10 initP ⟨"bitcoin", .SELL, 1⟩).1 =
        initP ∧
      (runTrade ["bitcoin"] exLatest 10 initP
        ⟨"bitcoin", .SELL, 1⟩).2 ≠ none) := by
  constructor
  · have hreach : Reachable exBuyState := by
      refine ⟨[⟨["bitcoin"], exLatest, 10, ⟨"bitcoin", .BUY, 2⟩⟩], ?_⟩
      simp [runTrace, runTrade_buy_ex]
    have := claim_C6_holdings_nonneg.1 exBuyState hreach ("bitcoin", 2)
      (by simp [exBuyState])
    simpa using this
  · exact claim_C6_holdings_nonneg.2 ["bitcoin"] exLatest 10 initP
      ⟨"bitcoin", .SELL, 1⟩ "bitcoin" rfl (by decide)
      (by norm_num [initP, getQty, lookupH])

/-- Claim C10: a whitelisted asset whose stored latest price is exactly
zero is rejected with the price-unavailable error before the transaction
body runs, exactly as if the price row were missing, and no state
changes. -/
theorem claim_C10_zero_price_rejected (wl : List String)
    (latest : String → Option ℚ) (ts : ℤ) (st : PState) (req : TradeReq)
    (cid : String)
    (hsym : validateSymbol wl req.symbol = some cid)
    (hq : 0 < req.qty) (hpx : latest cid = some 0) :
    runTrade wl latest ts st req = (st, some .PriceUnavailable) ∧
    runTrade wl latest ts st req =
      runTrade wl (fun s => if s = cid then none else latest s) ts st req := by
  have h0 : executeTrade wl latest ts st req = .error .PriceUnavailable := by
    unfold executeTrade
    rw [hsym]
    simp only [if_neg (not_le.mpr hq)]
    rw [hpx]
    simp
  have h1 : executeTrade wl (fun s => if s = cid then none else latest s) ts
      st req = .error .PriceUnavailable := by
    unfold executeTrade
    rw [hsym]
    simp [if_neg (not_le.mpr hq)]
  exact ⟨by simp [runTrade, h0], by simp [runTrade, h0, h1]⟩

/-- Witness for claim C10: a zero bitcoin price row makes the route reject
a BUY with `PriceUnavailable` and leave the fresh portfolio unchanged. -/
theorem claim_C10_zero_price_rejected_witness :
    runTrade ["bitcoin"] (fun s => if s = "bitcoin" then some 0 else none)
        10 initP ⟨"bitcoin", .BUY, 2⟩ = (initP, some .PriceUnavailable) := by
  exact (claim_C10_zero_price_rejected ["bitcoin"]
    (fun s => if s = "bitcoin" then some 0 else none) 10 initP
    ⟨"bitcoin", .BUY, 2⟩ "bitcoin" (by decide) (by norm_num) (by decide)).1

/-! ## Ledger-vs-replay round trip (claim C1) -/

theorem replayAll_append (l : List TradeRec) (t : TradeRec) :
    replayAll (l ++ [t]) = replayStep (replayAll l) t := by
  simp [replayAll, List.foldl_append]

theorem gPVAT_holdings (ps : PriceStore) (trades : List TradeRec)
    (asOf : ℤ) :
    (getPortfolioValueAtTime ps trades asOf).holdings =
      ((trades.filter (fun t => t.ts ≤ asOf)).foldl replayStep
        (100000, [])).2 := rfl

theorem gPVAT_cash (ps : PriceStore) (trades : List TradeRec) (asOf : ℤ) :
    (getPortfolioValueAtTime ps trades asOf).cash =
      ((trades.filter (fun t => t.ts ≤ asOf)).foldl replayStep
        (100000, [])).1 := rfl

/-- The replay invariant: replaying a portfolio's own trade log always
rebuilds its holdings exactly, and rebuilds its cash whenever no trade's
cost was rounded. -/
def ReplayInv (st : PState) : Prop :=
  (replayAll st.trades).2 = st.holdings ∧
  ((∀ t ∈ st.trades, Exact8 t) → (replayAll st.trades).1 = st.cash)

theorem runTrade_preserves_ReplayInv (wl : List String)
    (latest : String → Option ℚ) (ts : ℤ) (st : PState) (req : TradeReq)
    (hinv : ReplayInv st) :
    ReplayInv ((runTrade wl latest ts st req).1) := by
  obtain ⟨hH, hC⟩ := hinv
  cases hE : executeTrade wl latest ts st req with
  | error e => simpa [runTrade, hE] using ⟨hH, hC⟩
  | ok st' =>
      obtain ⟨cid, px, ws, hsym, hq, hpx, hpx0, htxn, hst⟩ :=
        (executeTrade_ok_iff wl latest ts st st' req).mp hE
      simp only [runTrade, hE]
      cases hside : req.side
      · rw [hside] at htxn
        simp only [tradeTxn] at htxn
        split at htxn
        · exact absurd htxn (by simp)
        · simp only [Except.ok.injEq] at htxn
          subst htxn
          rw [hst, buy_writes_apply]
          constructor
          · simp only [replayAll_append, replayStep, hH]
          · intro hex
            have hexOld : ∀ t ∈ st.trades, Exact8 t := by
              intro t ht
              exact hex t (by simp [ht])
            have hexNew : Exact8 ⟨cid, .BUY, req.qty, px,
                round8 (px * req.qty), ts⟩ := by
              apply hex
              simp
            simp only [replayAll_append, replayStep, hC hexOld]
            unfold Exact8 at hexNew
            simp only at hexNew
            rw [mul_comm req.qty px, hexNew]
      · rw [hside] at htxn
        simp only [tradeTxn] at htxn
        split at htxn
        · exact absurd htxn (by simp)
        · rename_i hge
          have hcash : (∀ t ∈ st.trades ++
                [(⟨cid, .SELL, req.qty, px, round8 (px * req.qty), ts⟩ :
                  TradeRec)], Exact8 t) →
              (replayAll (st.trades ++
                [⟨cid, .SELL, req.qty, px, round8 (px * req.qty), ts⟩])).1 =
                st.cash + round8 (px * req.qty) := by
            intro hex
            have hexOld : ∀ t ∈ st.trades, Exact8 t := by
              intro t ht
              exact hex t (by simp [ht])
            have hexNew : Exact8 ⟨cid, .SELL, req.qty, px,
                round8 (px * req.qty), ts⟩ := by
              apply hex
              simp
            simp only [replayAll_append, replayStep, hC hexOld]
            unfold Exact8 at hexNew
            simp only at hexNew
            rw [mul_comm req.qty px, hexNew]
          split at htxn
          · rename_i hz
            simp only [Except.ok.injEq] at htxn
            subst htxn
            rw [hst, sell_writes_apply_del]
            constructor
            · simp only [replayAll_append, replayStep, hH]
              rw [if_pos hz, deleteH_upsertH]
            · exact hcash
          · rename_i hz
            simp only [Except.ok.injEq] at htxn
            subst htxn
            rw [hst, sell_writes_apply_ups]
            constructor
            · simp only [replayAll_append, replayStep, hH]
              rw [if_neg hz]
            · exact hcash

theorem runTrace_ReplayInv (inputs : List StepInput) :
    ReplayInv (runTrace inputs initP) := by
  have hall : ∀ (l : List StepInput) (st0 : PState), ReplayInv st0 →
      ReplayInv (runTrace l st0) := by
    intro l
    induction l with
    | nil => intro st0 h0; simpa [runTrace]
    | cons i tl ih =>
        intro st0 h0
        have h1 := runTrade_preserves_ReplayInv i.wl i.latest i.ts st0
          i.req h0
        simpa [runTrace, List.foldl_cons] using
          ih ((runTrade i.wl i.latest i.ts st0 i.req).1) h1
  refine hall inputs initP ⟨?_, ?_⟩ <;> simp [replayAll, initP]

/-- Claim C1 (counterexample): a single executed BUY of 0.4 units at price
0.00000003 stores cash `100000 − 0.00000001` (the rounded cost), while the
Valuator's replay at `asOf = now` recomputes the unrounded cost and returns
`100000 − 0.000000012`. -/
theorem claim_C1_counterexample :
    (runTrade ["bitcoin"]
        (fun s => if s = "bitcoin" then some (3/100000000) else none) 10
        initP ⟨"bitcoin", .BUY, 2/5⟩).2 = none ∧
    (∀ t ∈ (runTrade ["bitcoin"]
        (fun s => if s = "bitcoin" then some (3/100000000) else none) 10
        initP ⟨"bitcoin", .BUY, 2/5⟩).1.trades, t.ts ≤ (100 : ℤ)) ∧
    (getPortfolioValueAtTime ⟨fun _ => [], fun _ => none⟩
        (runTrade ["bitcoin"]
          (fun s => if s = "bitcoin" then some (3/100000000) else none) 10
          initP ⟨"bitcoin", .BUY, 2/5⟩).1.trades 100).cash ≠
      (runTrade ["bitcoin"]
        (fun s => if s = "bitcoin" then some (3/100000000) else none) 10
        initP ⟨"bitcoin", .BUY, 2/5⟩).1.cash := by
  have he := executeTrade_eq_txn ["bitcoin"]
    (fun s => if s = "bitcoin" then some (3/100000000) else none) 10 initP
    ⟨"bitcoin", .BUY, 2/5⟩ "bitcoin" (3/100000000) (by decide)
    (by norm_num) (by simp) (by norm_num)
  have hcost : round8 ((3/100000000 : ℚ) * (2/5)) = 1/100000000 := by
    norm_num [round8]
  have hc : ¬ ((initP.cash : ℚ) < round8 ((3/100000000 : ℚ) * (2/5))) := by
    rw [hcost]
    norm_num [initP]
  have hrun : runTrade ["bitcoin"]
      (fun s => if s = "bitcoin" then some (3/100000000) else none) 10
      initP ⟨"bitcoin", .BUY, 2/5⟩ =
      (⟨100000 - 1/100000000, [("bitcoin", 2/5)],
        [⟨"bitcoin", .BUY, 2/5, 3/100000000, 1/100000000, 10⟩]⟩, none) := by
    simp only [runTrade, he, tradeTxn, if_neg hc]
    rw [buy_writes_apply]
    rw [hcost]
    norm_num [initP, getQty, lookupH, upsertH]
  rw [hrun]
  refine ⟨rfl, by norm_num, ?_⟩
  have hrep : (getPortfolioValueAtTime ⟨fun _ => [], fun _ => none⟩
      [⟨"bitcoin", .BUY, 2/5, 3/100000000, 1/100000000, 10⟩] 100).cash =
      100000 - 3/250000000 := by
    simp [getPortfolioValueAtTime, replayStep, getQty, lookupH, upsertH]
    norm_num
  rw [hrep]
  norm_num

/-- Claim C1 (amended): for every sequence of trade requests against one
portfolio, the Valuator's replay at `asOf = now` rebuilds exactly the
stored holdings map; it also rebuilds exactly the stored cash whenever no
executed trade's `price × quantity` required rounding to 8 decimal places
(the handler stores the rounded cost while the replay recomputes the
unrounded product). -/
theorem claim_C1_round_trip (ps : PriceStore) (inputs : List StepInput)
    (asOf : ℤ)
    (hts : ∀ t ∈ (runTrace inputs initP).trades, t.ts ≤ asOf) :
    (getPortfolioValueAtTime ps (runTrace inputs initP).trades
        asOf).holdings = (runTrace inputs initP).holdings ∧
    ((∀ t ∈ (runTrace inputs initP).trades, Exact8 t) →
      (getPortfolioValueAtTime ps (runTrace inputs initP).trades
        asOf).cash = (runTrace inputs initP).cash) := by
  obtain ⟨hH, hC⟩ := runTrace_ReplayInv inputs
  have hfilter : (runTrace inputs initP).trades.filter
      (fun t => t.ts ≤ asOf) = (runTrace inputs initP).trades := by
    apply List.filter_eq_self.mpr
    intro t ht
    simpa using hts t ht
  constructor
  · rw [gPVAT_holdings, hfilter]
    exact hH
  · intro hex
    rw [gPVAT_cash, hfilter]
    exact hC hex

/-- Witness for the amended claim C1: after the example BUY (whose cost
200 is exact), replay at time 100 returns exactly the stored holdings and
cash. -/
theorem claim_C1_round_trip_witness :
    (getPortfolioValueAtTime ⟨fun _ => [], fun _ => none⟩
        exBuyState.trades 100).holdings = exBuyState.holdings ∧
    (getPortfolioValueAtTime ⟨fun _ => [], fun _ => none⟩
        exBuyState.trades 100).cash = exBuyState.cash := by
  have hrt : runTrace [⟨["bitcoin"], exLatest, 10, ⟨"bitcoin", .BUY, 2⟩⟩]
      initP = exBuyState := by
    simp [runTrace, runTrade_buy_ex]
  have h := claim_C1_round_trip ⟨fun _ => [], fun _ => none⟩
    [⟨["bitcoin"], exLatest, 10, ⟨"bitcoin", .BUY, 2⟩⟩] 100
    (by
      rw [hrt]
      intro t ht
      simp only [exBuyState, List.mem_singleton] at ht
      rw [ht]
      norm_num)
  rw [hrt] at h
  refine ⟨h.1, h.2 ?_⟩
  intro t ht
  simp only [exBuyState, List.mem_singleton] at ht
  rw [ht]
  unfold Exact8
  norm_num [round8]

/-! ## Valuator refinement (claim C5) -/

theorem specReplayTrade_eq_replayStep : specReplayTrade = replayStep := by
  funext acc t
  obtain ⟨sym, side, qty, price, cost, ts⟩ := t
  cases side <;> rfl

theorem specBestPrice_eq_getPriceAtOrBefore (ps : PriceStore)
    (sym : String) (asOf : ℤ) :
    specBestPrice ps sym asOf = getPriceAtOrBefore ps sym asOf := by
  unfold specBestPrice getPriceAtOrBefore
  cases histAtOrBefore (ps.hist sym) asOf
  · cases ps.latest sym <;> rfl
  · rfl

theorem replayStep_AllPos (acc : ℚ × Holdings) (t : TradeRec)
    (hacc : AllPos acc.2) (hqt : 0 < t.qty) :
    AllPos (replayStep acc t).2 := by
  obtain ⟨sym, side, qty, price, cost, ts⟩ := t
  simp only at hqt
  cases side
  · simp only [replayStep]
    intro p hp
    rcases mem_upsertH _ _ _ _ hp with hmem | hpe
    · exact hacc p hmem
    · rw [hpe]
      exact add_pos_of_nonneg_of_pos (getQty_nonneg_of_AllPos _ _ hacc) hqt
  · simp only [replayStep]
    by_cases hz : getQty acc.2 sym - qty ≤ 0
    · rw [if_pos hz, deleteH_upsertH]
      intro p hp
      exact hacc p (mem_deleteH _ _ _ hp)
    · rw [if_neg hz]
      intro p hp
      rcases mem_upsertH _ _ _ _ hp with hmem | hpe
      · exact hacc p hmem
      · rw [hpe]
        exact lt_of_not_le hz

theorem foldl_replayStep_AllPos (l : List TradeRec) (acc : ℚ × Holdings)
    (hacc : AllPos acc.2) (hl : ∀ t ∈ l, 0 < t.qty) :
    AllPos ((l.foldl replayStep acc).2) := by
  induction l generalizing acc with
  | nil => simpa using hacc
  | cons t tl ih =>
      rw [List.foldl_cons]
      exact ih (replayStep acc t)
        (replayStep_AllPos acc t hacc (hl t (List.mem_cons_self _ _)))
        (fun u hu => hl u (List.mem_cons_of_mem _ hu))

/-- Claim C5: the Valuator's replay semantics.  On every trade list whose
quantities are positive (as the `trades` table's check constraint
guarantees), `getPortfolioValueAtTime` coincides with the specification's
`valueAt`: start from cash 100000 and an empty holdings map, replay exactly
the trades with `timestamp ≤ asOf` in the given (timestamp-ascending)
order, BUY decreasing cash and increasing the holding, SELL increasing cash
and decreasing the holding and deleting it at or below zero, then price
each remaining non-zero holding by the latest historical minute bucket at
or before `asOf`, falling back to the latest-price snapshot, then to
zero. -/
theorem claim_C5_valuator_replay (ps : PriceStore)
    (trades : List TradeRec) (asOf : ℤ)
    (hq : ∀ t ∈ trades, 0 < t.qty) :
    getPortfolioValueAtTime ps trades asOf = valueAtSpec ps trades asOf := by
  have hpos : AllPos (((trades.filter (fun t => t.ts ≤ asOf)).foldl
      replayStep (100000, [])).2) := by
    refine foldl_replayStep_AllPos _ _ (by intro p hp; simp at hp) ?_
    intro t ht
    exact hq t (List.mem_of_mem_filter ht)
  have hfilter2 : (((trades.filter (fun t => t.ts ≤ asOf)).foldl
      replayStep (100000, [])).2).filter (fun h => ¬ h.2 = 0) =
      ((trades.filter (fun t => t.ts ≤ asOf)).foldl
        replayStep (100000, [])).2 := by
    apply List.filter_eq_self.mpr
    intro p hp
    simpa using ne_of_gt (hpos p hp)
  unfold getPortfolioValueAtTime valueAtSpec
  rw [specReplayTrade_eq_replayStep]
  simp only [hfilter2, specBestPrice_eq_getPriceAtOrBefore]

/-- Witness for claim C5: the two valuators agree on the example trade
list against a concrete price store. -/
theorem claim_C5_valuator_replay_witness :
    getPortfolioValueAtTime
        ⟨fun _ => [(50, 90), (90, 110)], fun _ => some 130⟩
        exBuyState.trades 100 =
      valueAtSpec ⟨fun _ => [(50, 90), (90, 110)], fun _ => some 130⟩
        exBuyState.trades 100 := by
  apply claim_C5_valuator_replay
  intro t ht
  simp only [exBuyState, List.mem_singleton] at ht
  rw [ht]
  norm_num

/-! ## Matchup scoring (claim C7) -/

/-- Claim C7: for every round and pair of members, each side's profit is
`valueAt(effectiveEnd) − valueAt(roundStart)` with
`effectiveEnd = min(now, roundEnd)`; beyond the epsilon `1/10000` the side
with strictly greater profit wins; within the epsilon the absolute
`effectiveEnd` total values decide; within the epsilon again it is a TIE
with no winner. -/
theorem claim_C7_matchup_scoring (ps : PriceStore)
    (homeUserId awayUserId : ℕ) (homeTrades awayTrades : List TradeRec)
    (roundStart roundEnd now : ℤ) :
    (scoreHeadToHeadMatchup ps homeUserId awayUserId homeTrades awayTrades
        roundStart roundEnd now).effectiveEnd = min now roundEnd ∧
    (scoreHeadToHeadMatchup ps homeUserId awayUserId homeTrades awayTrades
        roundStart roundEnd now).homeProfit =
      (getPortfolioValueAtTime ps homeTrades (min now roundEnd)).totalValue -
      (getPortfolioValueAtTime ps homeTrades roundStart).totalValue ∧
    (scoreHeadToHeadMatchup ps homeUserId awayUserId homeTrades awayTrades
        roundStart roundEnd now).awayProfit =
      (getPortfolioValueAtTime ps awayTrades (min now roundEnd)).totalValue -
      (getPortfolioValueAtTime ps awayTrades roundStart).totalValue ∧
    (scoreHeadToHeadMatchup ps homeUserId awayUserId homeTrades awayTrades
        roundStart roundEnd now).homeEndValue =
      (getPortfolioValueAtTime ps homeTrades
        (min now roundEnd)).totalValue ∧
    (scoreHeadToHeadMatchup ps homeUserId awayUserId homeTrades awayTrades
        roundStart roundEnd now).awayEndValue =
      (getPortfolioValueAtTime ps awayTrades
        (min now roundEnd)).totalValue ∧
    ((1 : ℚ)/10000 <
        |(scoreHeadToHeadMatchup ps homeUserId awayUserId homeTrades
            awayTrades roundStart roundEnd now).homeProfit -
          (scoreHeadToHeadMatchup ps homeUserId awayUserId homeTrades
            awayTrades roundStart roundEnd now).awayProfit| →
      ((scoreHeadToHeadMatchup ps homeUserId awayUserId homeTrades
          awayTrades roundStart roundEnd now).awayProfit <
        (scoreHeadToHeadMatchup ps homeUserId awayUserId homeTrades
          awayTrades roundStart roundEnd now).homeProfit →
        (scoreHeadToHeadMatchup ps homeUserId awayUserId homeTrades
          awayTrades roundStart roundEnd now).result = .HOME_WIN ∧
        (scoreHeadToHeadMatchup ps homeUserId awayUserId homeTrades
          awayTrades roundStart roundEnd now).winnerUserId =
          some homeUserId) ∧
      ((scoreHeadToHeadMatchup ps homeUserId awayUserId homeTrades
          awayTrades roundStart roundEnd now).homeProfit <
        (scoreHeadToHeadMatchup ps homeUserId awayUserId homeTrades
          awayTrades roundStart roundEnd now).awayProfit →
        (scoreHeadToHeadMatchup ps homeUserId awayUserId homeTrades
          awayTrades roundStart roundEnd now).result = .AWAY_WIN ∧
        (scoreHeadToHeadMatchup ps homeUserId awayUserId homeTrades
          awayTrades roundStart roundEnd now).winnerUserId =
          some awayUserId)) ∧
    (|(scoreHeadToHeadMatchup ps homeUserId awayUserId homeTrades
          awayTrades roundStart roundEnd now).homeProfit -
        (scoreHeadToHeadMatchup ps homeUserId awayUserId homeTrades
          awayTrades roundStart roundEnd now).awayProfit| ≤ (1 : ℚ)/10000 →
      (1 : ℚ)/10000 <
        |(scoreHeadToHeadMatchup ps homeUserId awayUserId homeTrades
            awayTrades roundStart roundEnd now).homeEndValue -
          (scoreHeadToHeadMatchup ps homeUserId awayUserId homeTrades
            awayTrades roundStart roundEnd now).awayEndValue| →
      ((scoreHeadToHeadMatchup ps homeUserId awayUserId homeTrades
          awayTrades roundStart roundEnd now).awayEndValue <
        (scoreHeadToHeadMatchup ps homeUserId awayUserId homeTrades
          awayTrades roundStart roundEnd now).homeEndValue →
        (scoreHeadToHeadMatchup ps homeUserId awayUserId homeTrades
          awayTrades roundStart roundEnd now).result = .HOME_WIN ∧
        (scoreHeadToHeadMatchup ps homeUserId awayUserId homeTrades
          awayTrades roundStart roundEnd now).winnerUserId =
          some homeUserId) ∧
      ((scoreHeadToHeadMatchup ps homeUserId awayUserId homeTrades
          awayTrades roundStart roundEnd now).homeEndValue <
        (scoreHeadToHeadMatchup ps homeUserId awayUserId homeTrades
          awayTrades roundStart roundEnd now).awayEndValue →
        (scoreHeadToHeadMatchup ps homeUserId awayUserId homeTrades
          awayTrades roundStart roundEnd now).result = .AWAY_WIN ∧
        (scoreHeadToHeadMatchup ps homeUserId awayUserId homeTrades
          awayTrades roundStart roundEnd now).winnerUserId =
          some awayUserId)) ∧
    (|(scoreHeadToHeadMatchup ps homeUserId awayUserId homeTrades
          awayTrades roundStart roundEnd now).homeProfit -
        (scoreHeadToHeadMatchup ps homeUserId awayUserId homeTrades
          awayTrades roundStart roundEnd now).awayProfit| ≤ (1 : ℚ)/10000 →
      |(scoreHeadToHeadMatchup ps homeUserId awayUserId homeTrades
          awayTrades roundStart roundEnd now).homeEndValue -
        (scoreHeadToHeadMatchup ps homeUserId awayUserId homeTrades
          awayTrades roundStart roundEnd now).awayEndValue| ≤ (1 : ℚ)/10000 →
      (scoreHeadToHeadMatchup ps homeUserId awayUserId homeTrades
        awayTrades roundStart roundEnd now).result = .TIE ∧
      (scoreHeadToHeadMatchup ps homeUserId awayUserId homeTrades
        awayTrades roundStart roundEnd now).winnerUserId = none) := by
  have hmin : (if now < roundEnd then now else roundEnd) =
      min now roundEnd := by
    rw [min_def]
    by_cases h : now < roundEnd
    · rw [if_pos h, if_pos (le_of_lt h)]
    · rw [if_neg h]
      by_cases h2 : now ≤ roundEnd
      · rw [if_pos h2]
        omega
      · rw [if_neg h2]
  have ho : scoreHeadToHeadMatchup ps homeUserId awayUserId homeTrades
      awayTrades roundStart roundEnd now =
      { effectiveEnd := min now roundEnd
        homeStartValue :=
          (getPortfolioValueAtTime ps homeTrades roundStart).totalValue
        homeEndValue :=
          (getPortfolioValueAtTime ps homeTrades
            (min now roundEnd)).totalValue
        homeProfit :=
          (getPortfolioValueAtTime ps homeTrades
            (min now roundEnd)).totalValue -
          (getPortfolioValueAtTime ps homeTrades roundStart).totalValue
        awayStartValue :=
          (getPortfolioValueAtTime ps awayTrades roundStart).totalValue
        awayEndValue :=
          (getPortfolioValueAtTime ps awayTrades
            (min now roundEnd)).totalValue
        awayProfit :=
          (getPortfolioValueAtTime ps awayTrades
            (min now roundEnd)).totalValue -
          (getPortfolioValueAtTime ps awayTrades roundStart).totalValue
        winnerUserId :=
          (if (1 : ℚ)/10000 <
              |((getPortfolioValueAtTime ps homeTrades
                  (min now roundEnd)).totalValue -
                (getPortfolioValueAtTime ps homeTrades
                  roundStart).totalValue) -
               ((getPortfolioValueAtTime ps awayTrades
                  (min now roundEnd)).totalValue -
                (getPortfolioValueAtTime ps awayTrades
                  roundStart).totalValue)| then
            if 0 <
                ((getPortfolioValueAtTime ps homeTrades
                    (min now roundEnd)).totalValue -
                  (getPortfolioValueAtTime ps homeTrades
                    roundStart).totalValue) -
                ((getPortfolioValueAtTime ps awayTrades
                    (min now roundEnd)).totalValue -
                  (getPortfolioValueAtTime ps awayTrades
                    roundStart).totalValue) then
              ((some homeUserId : Option ℕ), MatchResult.HOME_WIN)
            else ((some awayUserId : Option ℕ), MatchResult.AWAY_WIN)
          else if (1 : ℚ)/10000 <
              |(getPortfolioValueAtTime ps homeTrades
                  (min now roundEnd)).totalValue -
                (getPortfolioValueAtTime ps awayTrades
                  (min now roundEnd)).totalValue| then
            if 0 <
                (getPortfolioValueAtTime ps homeTrades
                    (min now roundEnd)).totalValue -
                (getPortfolioValueAtTime ps awayTrades
                    (min now roundEnd)).totalValue then
              ((some homeUserId : Option ℕ), MatchResult.HOME_WIN)
            else ((some awayUserId : Option ℕ), MatchResult.AWAY_WIN)
          else ((none : Option ℕ), MatchResult.TIE)).1
        result :=
          (if (1 : ℚ)/10000 <
              |((getPortfolioValueAtTime ps homeTrades
                  (min now roundEnd)).totalValue -
                (getPortfolioValueAtTime ps homeTrades
                  roundStart).totalValue) -
               ((getPortfolioValueAtTime ps awayTrades
                  (min now roundEnd)).totalValue -
                (getPortfolioValueAtTime ps awayTrades
                  roundStart).totalValue)| then
            if 0 <
                ((getPortfolioValueAtTime ps homeTrades
                    (min now roundEnd)).totalValue -
                  (getPortfolioValueAtTime ps homeTrades
                    roundStart).totalValue) -
                ((getPortfolioValueAtTime ps awayTrades
                    (min now roundEnd)).totalValue -
                  (getPortfolioValueAtTime ps awayTrades
                    roundStart).totalValue) then
              ((some homeUserId : Option ℕ), MatchResult.HOME_WIN)
            else ((some awayUserId : Option ℕ), MatchResult.AWAY_WIN)
          else if (1 : ℚ)/10000 <
              |(getPortfolioValueAtTime ps homeTrades
                  (min now roundEnd)).totalValue -
                (getPortfolioValueAtTime ps awayTrades
                  (min now roundEnd)).totalValue| then
            if 0 <
                (getPortfolioValueAtTime ps homeTrades
                    (min now roundEnd)).totalValue -
                (getPortfolioValueAtTime ps awayTrades
                    (min now roundEnd)).totalValue then
              ((some homeUserId : Option ℕ), MatchResult.HOME_WIN)
            else ((some awayUserId : Option ℕ), MatchResult.AWAY_WIN)
          else ((none : Option ℕ), MatchResult.TIE)).2 } := by
    unfold scoreHeadToHeadMatchup
    rw [hmin]
  refine ⟨by rw [ho], by rw [ho], by rw [ho], by rw [ho], by rw [ho],
    ?_, ?_, ?_⟩
  · intro hEPS
    simp only [ho] at hEPS ⊢
    rw [if_pos hEPS]
    constructor
    · intro hlt
      rw [if_pos (by linarith)]
      exact ⟨rfl, rfl⟩
    · intro hlt
      rw [if_neg (by linarith)]
      exact ⟨rfl, rfl⟩
  · intro hE1 hE2
    simp only [ho] at hE1 hE2 ⊢
    rw [if_neg (not_lt.mpr hE1), if_pos hE2]
    constructor
    · intro hlt
      rw [if_pos (by linarith)]
      exact ⟨rfl, rfl⟩
    · intro hlt
      rw [if_neg (by linarith)]
      exact ⟨rfl, rfl⟩
  · intro hE1 hE2
    simp only [ho] at hE1 hE2 ⊢
    rw [if_neg (not_lt.mpr hE1), if_neg (not_lt.mpr hE2)]
    exact ⟨rfl, rfl⟩

/-- Witness for claim C7: with no trades on either side and no prices both
profits are 0, so the concrete matchup is a TIE with no winner, scored over
`effectiveEnd = min(100, 50) = 50`. -/
theorem claim_C7_matchup_scoring_witness :
    (scoreHeadToHeadMatchup ⟨fun _ => [], fun _ => none⟩ 1 2 [] [] 0 50
      100).effectiveEnd = 50 ∧
    (scoreHeadToHeadMatchup ⟨fun _ => [], fun _ => none⟩ 1 2 [] [] 0 50
      100).result = .TIE ∧
    (scoreHeadToHeadMatchup ⟨fun _ => [], fun _ => none⟩ 1 2 [] [] 0 50
      100).winnerUserId = none := by
  have h := claim_C7_matchup_scoring ⟨fun _ => [], fun _ => none⟩ 1 2 [] []
    0 50 100
  have hv : ∀ asOf : ℤ, (getPortfolioValueAtTime
      (⟨fun _ => [], fun _ => none⟩ : PriceStore) [] asOf).totalValue =
      100000 := by
    intro asOf
    simp [getPortfolioValueAtTime]
  have hp0 : (scoreHeadToHeadMatchup ⟨fun _ => [], fun _ => none⟩ 1 2 [] []
      0 50 100).homeProfit = 0 := by
    rw [h.2.1, hv, hv]
    ring
  have ha0 : (scoreHeadToHeadMatchup ⟨fun _ => [], fun _ => none⟩ 1 2 [] []
      0 50 100).awayProfit = 0 := by
    rw [h.2.2.1, hv, hv]
    ring
  have hhe : (scoreHeadToHeadMatchup ⟨fun _ => [], fun _ => none⟩ 1 2 [] []
      0 50 100).homeEndValue = 100000 := by
    rw [h.2.2.2.1, hv]
  have hae : (scoreHeadToHeadMatchup ⟨fun _ => [], fun _ => none⟩ 1 2 [] []
      0 50 100).awayEndValue = 100000 := by
    rw [h.2.2.2.2.1, hv]
  have htie := h.2.2.2.2.2.2.2
    (by rw [hp0, ha0]; norm_num) (by rw [hhe, hae]; norm_num)
  refine ⟨?_, htie.1, htie.2⟩
  rw [h.1]
  decide

/-! ## Schedule lemmas (claims C8 and C9) -/

theorem emitPair_ids (arr : List Player) (i : ℕ) :
    ((emitPair arr i).elim [] entryIds) =
      optIds (arr.get? i) ++ optIds (arr.get? (arr.length - 1 - i)) := by
  unfold emitPair
  cases h1 : arr.get? i with
  | none =>
      cases h2 : arr.get? (arr.length - 1 - i) with
      | none => rfl
      | some a => cases ha : a.id <;> simp [optIds, pIds, entryIds, ha]
  | some p =>
      cases h2 : arr.get? (arr.length - 1 - i) with
      | none => cases hp : p.id <;> simp [optIds, pIds, entryIds, hp]
      | some a =>
          cases hp : p.id <;> cases ha : a.id <;>
            simp [optIds, pIds, entryIds, hp, ha]

theorem bind_filterMap_entryIds (l : List ℕ) (f : ℕ → Option Entry) :
    (l.filterMap f).flatMap entryIds =
      l.flatMap (fun i => ((f i).elim [] entryIds)) := by
  induction l with
  | nil => rfl
  | cons a t ih => cases hf : f a <;> simp [List.filterMap_cons, hf, ih]

theorem bind_append_perm (l : List ℕ) (f g : ℕ → List ℕ) :
    (l.flatMap (fun i => f i ++ g i)) ~ l.flatMap f ++ l.flatMap g := by
  induction l with
  | nil => rfl
  | cons a t ih =>
      simp only [List.flatMap_cons]
      calc f a ++ g a ++ t.flatMap (fun i => f i ++ g i)
          ~ f a ++ g a ++ (t.flatMap f ++ t.flatMap g) :=
            List.Perm.append_left _ ih
        _ = f a ++ (g a ++ t.flatMap f ++ t.flatMap g) := by
            simp [List.append_assoc]
        _ ~ f a ++ (t.flatMap f ++ g a ++ t.flatMap g) :=
            List.Perm.append_left _
              (List.Perm.append_right _ List.perm_append_comm)
        _ = f a ++ t.flatMap f ++ (g a ++ t.flatMap g) := by
            simp [List.append_assoc]

theorem range_map_lookup {α : Type} (l : List α) (n : ℕ)
    (hn : n ≤ l.length) :
    (List.range n).map (fun i => l.get? i) = (l.take n).map some := by
  induction n with
  | zero => simp
  | succ k ih =>
      rw [List.range_succ, List.map_append,
        ih (Nat.le_of_succ_le hn), List.take_succ, List.map_append]
      congr 1
      have hk : k < l.length := hn
      simp [List.get?_eq_getElem?, List.getElem?_eq_getElem hk]

theorem range_map_lookup_rev {α : Type} (l : List α) (half : ℕ)
    (hlen : l.length = 2 * half) :
    (List.range half).map (fun i => l.get? (l.length - 1 - i)) =
      ((l.drop half).reverse).map some := by
  have hd : (l.drop half).length = half := by
    simp [hlen]
    omega
  have h1 : ((l.drop half).reverse).map some =
      (List.range half).map (fun i => (l.drop half).reverse.get? i) := by
    rw [range_map_lookup _ half (by simp [hd])]
    rw [List.take_of_length_le (by simp [hd])]
  rw [h1]
  apply List.map_congr_left
  intro i hi
  rw [List.mem_range] at hi
  rw [List.get?_reverse (by rw [hd]; exact hi)]
  rw [hd, List.get?_drop]
  congr 1
  omega

theorem bind_some_optIds (l : List Player) :
    (l.map some).flatMap optIds = l.flatMap pIds := by
  rw [List.bind_map]
  rfl

/-- Over an even-length roster array, the ids that a circle-method round
mentions are a permutation of the array's real member ids. -/
theorem roundIds_perm (arr : List Player) (half : ℕ)
    (hlen : arr.length = 2 * half) :
    roundIds (roundMatchups arr) ~ realIds arr := by
  unfold roundMatchups roundIds
  rw [bind_filterMap_entryIds]
  rw [show (fun i => ((emitPair arr i).elim [] entryIds)) =
      (fun i => optIds (arr.get? i) ++
        optIds (arr.get? (arr.length - 1 - i))) from
    funext (emitPair_ids arr)]
  have hhalf : arr.length / 2 = half := by omega
  rw [hhalf]
  refine Perm.trans (bind_append_perm _ _ _) ?_
  have hb1 : (List.range half).flatMap (fun i => optIds (arr.get? i)) =
      (arr.take half).flatMap pIds := by
    have hmap := range_map_lookup arr half (by omega)
    calc ((List.range half).flatMap (fun i => optIds (arr.get? i)))
        = ((List.range half).map (fun i => arr.get? i)).flatMap optIds := by
          rw [List.bind_map]
      _ = ((arr.take half).map some).flatMap optIds := by rw [hmap]
      _ = (arr.take half).flatMap pIds := bind_some_optIds _
  have hb2 : (List.range half).flatMap
      (fun i => optIds (arr.get? (arr.length - 1 - i))) =
      ((arr.drop half).reverse).flatMap pIds := by
    have hmap := range_map_lookup_rev arr half hlen
    calc ((List.range half).flatMap
          (fun i => optIds (arr.get? (arr.length - 1 - i))))
        = ((List.range half).map
            (fun i => arr.get? (arr.length - 1 - i))).flatMap optIds := by
          rw [List.bind_map]
      _ = (((arr.drop half).reverse).map some).flatMap optIds := by
          rw [hmap]
      _ = ((arr.drop half).reverse).flatMap pIds := bind_some_optIds _
  rw [hb1, hb2]
  refine Perm.trans (List.Perm.append_left _
    (List.Perm.bind_right pIds (List.reverse_perm _))) ?_
  rw [← List.append_bind, List.take_append_drop]
  exact Perm.refl _

theorem rotateOnce_perm {α : Type} (l : List α) : rotateOnce l ~ l := by
  cases l with
  | nil => rfl
  | cons f rest =>
      cases rest with
      | nil => rfl
      | cons x xs =>
          refine List.Perm.cons f ?_
          have h := (x :: xs).dropLast_append_getLast (by simp)
          calc (x :: xs).getLast (by simp) :: (x :: xs).dropLast
              = [(x :: xs).getLast (by simp)] ++ (x :: xs).dropLast := rfl
            _ ~ (x :: xs).dropLast ++ [(x :: xs).getLast (by simp)] :=
              List.perm_append_comm
            _ = x :: xs := h

theorem rotateIter_perm {α : Type} (r : ℕ) (l : List α) :
    rotateOnce^[r] l ~ l := by
  induction r generalizing l with
  | zero => rfl
  | succ k ih =>
      rw [Function.iterate_succ_apply]
      exact Perm.trans (ih (rotateOnce l)) (rotateOnce_perm l)

theorem bind_pIds_map_member (members : List Member) :
    ((members.map (fun m => (⟨some m.id, m.username⟩ : Player))).flatMap
      pIds) = members.map Member.id := by
  induction members with
  | nil => rfl
  | cons m t ih => simp [pIds, ih]

theorem realIds_padPlayers (members : List Member) :
    realIds (padPlayers members) = members.map Member.id := by
  unfold padPlayers realIds
  by_cases h : (members.map
      (fun m => (⟨some m.id, m.username⟩ : Player))).length % 2 = 1
  · simp only [if_pos h, List.append_bind]
    rw [bind_pIds_map_member]
    simp [pIds]

  · simp only [if_neg h]
    exact bind_pIds_map_member members

theorem padPlayers_even (members : List Member) :
    (padPlayers members).length % 2 = 0 := by
  simp only [padPlayers, List.length_map]
  by_cases h : members.length % 2 = 1
  · rw [if_pos h]
    simp only [List.length_append, List.length_map,
      List.length_singleton]
    omega
  · rw [if_neg h]
    simp only [List.length_map]
    omega

/-- Claim C8: schedule base structure.  Fewer than 2 members yield an empty
schedule; an odd roster is padded with the BYE placeholder (an even one is
not); the circle method produces `N − 1` base rounds (`N` the padded
count); every real member's id appears exactly once in each base round;
and a pairing whose one side is the BYE placeholder is emitted as a
bye-entry, a pairing of two real members as a head-to-head matchup. -/
theorem claim_C8_schedule_base (fast : Bool) (cfg : LeagueCfg)
    (members : List Member) (hnd : (members.map Member.id).Nodup) :
    (members.length < 2 → computeLeagueSchedule fast cfg members = []) ∧
    (members.length % 2 = 1 → padPlayers members =
        members.map (fun m => ⟨some m.id, m.username⟩) ++
          [⟨none, "BYE"⟩]) ∧
    (members.length % 2 = 0 → padPlayers members =
        members.map (fun m => ⟨some m.id, m.username⟩)) ∧
    (baseRoundsList (padPlayers members)).length =
      (padPlayers members).length - 1 ∧
    (∀ round ∈ baseRoundsList (padPlayers members), ∀ m ∈ members,
        (roundIds round).count m.id = 1) ∧
    (∀ (arr : List Player) (i : ℕ) (p b : Player) (v : ℕ),
        arr.get? i = some p → arr.get? (arr.length - 1 - i) = some b →
        ((p.id = some v → b.id = none →
            emitPair arr i = some (.bye v p.username)) ∧
         (p.id = none → b.id = some v →
            emitPair arr i = some (.bye v b.username)) ∧
         (∀ w : ℕ, p.id = some v → b.id = some w →
            emitPair arr i = some (.game v w p.username b.username)))) := by
  refine ⟨?_, ?_, ?_, ?_, ?_, ?_⟩
  · intro h
    simp only [computeLeagueSchedule, if_pos h]
  · intro h
    simp only [padPlayers, List.length_map]
    rw [if_pos h]
  · intro h
    simp only [padPlayers, List.length_map]
    rw [if_neg (by omega)]
  · simp [baseRoundsList]
  · intro round hr m hm
    simp only [baseRoundsList, List.mem_map, List.mem_range] at hr
    obtain ⟨r, _, hround⟩ := hr
    have hlen : (rotateOnce^[r] (padPlayers members)).length =
        (padPlayers members).length :=
      (rotateIter_perm r (padPlayers members)).length_eq
    have heven := padPlayers_even members
    have hhalf : (rotateOnce^[r] (padPlayers members)).length =
        2 * ((padPlayers members).length / 2) := by omega
    have hperm1 : roundIds (roundMatchups (rotateOnce^[r]
        (padPlayers members))) ~ realIds (rotateOnce^[r]
        (padPlayers members)) :=
      roundIds_perm _ _ hhalf
    have hperm2 : realIds (rotateOnce^[r] (padPlayers members)) ~
        realIds (padPlayers members) :=
      List.Perm.bind_right pIds (rotateIter_perm r (padPlayers members))
    rw [← hround]
    rw [hperm1.count_eq, hperm2.count_eq, realIds_padPlayers]
    exact List.count_eq_one_of_mem hnd (List.mem_map_of_mem Member.id hm)
  · intro arr i p b v h1 h2
    refine ⟨?_, ?_, ?_⟩
    · intro hp hb
      unfold emitPair
      rw [h1, h2]
      simp [hp, hb]
    · intro hp hb
      unfold emitPair
      rw [h1, h2]
      simp [hp, hb]
    · intro w hp hb
      unfold emitPair
      rw [h1, h2]
      simp [hp, hb]

/-- Witness for claim C8: a 3-member roster is padded with the BYE slot
and, in every base round of its schedule, member 1 appears exactly once. -/
theorem claim_C8_schedule_base_witness :
    padPlayers [⟨1, "a"⟩, ⟨2, "b"⟩, ⟨3, "c"⟩] =
      [⟨some 1, "a"⟩, ⟨some 2, "b"⟩, ⟨some 3, "c"⟩, ⟨none, "BYE"⟩] ∧
    (∀ round ∈ baseRoundsList (padPlayers [⟨1, "a"⟩, ⟨2, "b"⟩, ⟨3, "c"⟩]),
        (roundIds round).count 1 = 1) := by
  have h := claim_C8_schedule_base false ⟨0, none, none⟩
    [⟨1, "a"⟩, ⟨2, "b"⟩, ⟨3, "c"⟩] (by decide)
  constructor
  · rw [h.2.1 (by decide)]
    rfl
  · intro round hr
    exact h.2.2.2.2.1 round hr ⟨1, "a"⟩ (by decide)

/-- Claim C9: schedule round count and timing.  With at least 2 members:
a positive-integer matchup-count setting yields `min(count, 1000)` rounds
(so between 1 and 1000); otherwise the natural `N − 1` base count is used;
and in non-fast mode each round `r` (0-based) starts at
`created_at + r × interval`, ends one millisecond before the next round,
uses the base pairing pattern at index `r mod (N − 1)`, with a 1-day
interval in DAILY mode and a 7-day interval in WEEKLY (or default)
mode. -/
theorem claim_C9_schedule_rounds (cfg : LeagueCfg)
    (members : List Member) (hm : 2 ≤ members.length) :
    (∀ q : ℚ, cfg.matchupCount = some q → q.den = 1 → 0 < q →
        ((computeLeagueSchedule false cfg members).length : ℤ) =
          min q.num 1000 ∧
        1 ≤ (computeLeagueSchedule false cfg members).length ∧
        (computeLeagueSchedule false cfg members).length ≤ 1000) ∧
    (cfg.matchupCount = none →
        (computeLeagueSchedule false cfg members).length =
          (padPlayers members).length - 1) ∧
    (∀ q : ℚ, cfg.matchupCount = some q → ¬(q.den = 1 ∧ 0 < q) →
        (computeLeagueSchedule false cfg members).length =
          (padPlayers members).length - 1) ∧
    (cfg.matchupFrequency = some "DAILY" →
      ∀ r : ℕ, r < (computeLeagueSchedule false cfg members).length →
        (computeLeagueSchedule false cfg members).get? r =
          some { roundIndex := r + 1
                 label := "Day " ++ toString (r + 1)
                 start := cfg.createdAt + (r : ℤ) * 86400000
                 endTs := cfg.createdAt + (r : ℤ) * 86400000 +
                   86400000 - 1
                 matchups := (baseRoundsList (padPlayers members)).getD
                   (r % ((padPlayers members).length - 1)) [] }) ∧
    ((cfg.matchupFrequency = some "WEEKLY" ∨ cfg.matchupFrequency = none) →
      ∀ r : ℕ, r < (computeLeagueSchedule false cfg members).length →
        (computeLeagueSchedule false cfg members).get? r =
          some { roundIndex := r + 1
                 label := "Week " ++ toString (r + 1)
                 start := cfg.createdAt + (r : ℤ) * 604800000
                 endTs := cfg.createdAt + (r : ℤ) * 604800000 +
                   604800000 - 1
                 matchups := (baseRoundsList (padPlayers members)).getD
                   (r % ((padPlayers members).length - 1)) [] }) := by
  have hm2 : ¬ members.length < 2 := by omega
  have hlen : (computeLeagueSchedule false cfg members).length =
      schedTotalRounds cfg members := by
    simp [computeLeagueSchedule, if_neg hm2]
  have hpad2 : 2 ≤ (padPlayers members).length := by
    simp only [padPlayers, List.length_map]
    by_cases h : members.length % 2 = 1
    · rw [if_pos h]
      simp only [List.length_append, List.length_map,
        List.length_singleton]
      omega
    · rw [if_neg h]
      simp only [List.length_map]
      omega
  have hbase1 : 1 ≤ schedBaseRounds members := by
    unfold schedBaseRounds
    omega
  refine ⟨?_, ?_, ?_, ?_, ?_⟩
  · intro q hq hden hpos
    have hnum : 1 ≤ q.num := Rat.num_pos.mpr hpos
    have hmin : 1 ≤ min q.num 1000 := le_min hnum (by norm_num)
    have ht1 : schedTotalRounds cfg members = (min q.num 1000).toNat := by
      unfold schedTotalRounds
      rw [hq]
      simp only [if_pos (And.intro hden hpos)]
      rw [if_neg (by omega)]
    rw [hlen, ht1]
    refine ⟨?_, by omega, by omega⟩
    rw [Int.toNat_of_nonneg (by omega)]
  · intro hq
    rw [hlen]
    unfold schedTotalRounds
    rw [hq]
    rw [if_neg (by push_cast; omega)]
    rw [Int.toNat_natCast]
    rfl
  · intro q hq hnq
    rw [hlen]
    unfold schedTotalRounds
    rw [hq]
    simp only [if_neg hnq]
    rw [if_neg (by push_cast; omega)]
    rw [Int.toNat_natCast]
    rfl
  · intro hfreq r hr
    have hdaily : schedIsDaily cfg = true := by
      unfold schedIsDaily freqOf
      rw [hfreq]
      decide
    have hint : schedInterval false cfg = 86400000 := by
      simp [schedInterval, intervalMsOf, hdaily]
    rw [hlen] at hr
    have hsched : computeLeagueSchedule false cfg members =
        (List.range (schedTotalRounds cfg members)).map (fun (r : ℕ) =>
          { roundIndex := r + 1
            label := (if schedIsDaily cfg then "Day " else "Week ") ++
              toString (r + 1)
            start := cfg.createdAt + (r : ℤ) * schedInterval false cfg
            endTs := cfg.createdAt + (r : ℤ) * schedInterval false cfg +
              schedInterval false cfg - 1
            matchups := (baseRoundsList (padPlayers members)).getD
              (r % schedBaseRounds members) [] }) := by
      simp [computeLeagueSchedule, if_neg hm2, add_sub_assoc]
    rw [hsched, List.get?_map, List.get?_range hr]
    simp [hint, hdaily, schedBaseRounds]
  · intro hfreq r hr
    have hdaily : schedIsDaily cfg = false := by
      unfold schedIsDaily freqOf
      rcases hfreq with h | h <;> rw [h] <;> decide
    have hint : schedInterval false cfg = 604800000 := by
      simp [schedInterval, intervalMsOf, hdaily]
    rw [hlen] at hr
    have hsched : computeLeagueSchedule false cfg members =
        (List.range (schedTotalRounds cfg members)).map (fun (r : ℕ) =>
          { roundIndex := r + 1
            label := (if schedIsDaily cfg then "Day " else "Week ") ++
              toString (r + 1)
            start := cfg.createdAt + (r : ℤ) * schedInterval false cfg
            endTs := cfg.createdAt + (r : ℤ) * schedInterval false cfg +
              schedInterval false cfg - 1
            matchups := (baseRoundsList (padPlayers members)).getD
              (r % schedBaseRounds members) [] }) := by
      simp [computeLeagueSchedule, if_neg hm2, add_sub_assoc]
    rw [hsched, List.get?_map, List.get?_range hr]
    simp [hint, hdaily, schedBaseRounds]

/-- Witness for claim C9: a 4-member DAILY league capped at 5 matchups
schedules exactly 5 rounds and its first round spans day one. -/
theorem claim_C9_schedule_rounds_witness :
    ((computeLeagueSchedule false ⟨0, some "DAILY", some 5⟩
        [⟨1, "a"⟩, ⟨2, "b"⟩, ⟨3, "c"⟩, ⟨4, "d"⟩]).length : ℤ) =
      min (5 : ℚ).num 1000 ∧
    (computeLeagueSchedule false ⟨0, some "DAILY", some 5⟩
        [⟨1, "a"⟩, ⟨2, "b"⟩, ⟨3, "c"⟩, ⟨4, "d"⟩]).get? 0 =
      some { roundIndex := 1
             label := "Day " ++ toString 1
             start := (0 : ℤ) + (0 : ℤ) * 86400000
             endTs := (0 : ℤ) + (0 : ℤ) * 86400000 + 86400000 - 1
             matchups := (baseRoundsList (padPlayers
               [⟨1, "a"⟩, ⟨2, "b"⟩, ⟨3, "c"⟩, ⟨4, "d"⟩])).getD
               (0 % ((padPlayers
                 [⟨1, "a"⟩, ⟨2, "b"⟩, ⟨3, "c"⟩, ⟨4, "d"⟩]).length - 1))
               [] } := by
  have h := claim_C9_schedule_rounds ⟨0, some "DAILY", some 5⟩
    [⟨1, "a"⟩, ⟨2, "b"⟩, ⟨3, "c"⟩, ⟨4, "d"⟩] (by norm_num)
  have hden : (5 : ℚ).den = 1 := rfl
  have hcount := h.1 5 rfl hden (by norm_num)
  refine ⟨hcount.1, ?_⟩
  have hr0 : 0 < (computeLeagueSchedule false ⟨0, some "DAILY", some 5⟩
      [⟨1, "a"⟩, ⟨2, "b"⟩, ⟨3, "c"⟩, ⟨4, "d"⟩]).length := hcount.2.1
  exact h.2.2.2.1 rfl 0 hr0

end CryptoFantasy
